import Mathlib

/-!
Verification development for the quiz_generator repository.

The Python sources embedded here:
* `quiz_generator/models/quiz.py` — pydantic models `QuizQuestion`, `ValidationResult`,
  `QuizOutput` (field validators `not_empty`, `valid_answer`);
* `quiz_generator/generator.py` — `generate_quiz` (LLM call, `json.loads` +
  `QuizOutput.model_validate`, greedy-regex fallback, sentinel question);
* `quiz_generator/validator.py` — `validate_answer`, `validate_question`,
  `validate_quiz_questions` (the canonical validator variant);
* `app/validator.py` — the second `validate_answer` variant (with source cleaning);
* `app/app.py` — the `/generate-quiz` endpoint glue.

External collaborators are modelled as parameters: the LLM chat completion is a
function from the user prompt to either an exception message or raw text, and the
reasoning agent is an `Except String String` outcome.  Python's `json.loads` is
modelled by an executable recursive-descent JSON reader over `List Char`
(integers only — no floats or \u escapes, which none of the claims exercise).
-/

namespace QuizProof

/-! ## Character classes and Python `str.strip` -/

/-- Whitespace skipped by the JSON scanner (RFC 8259 / Python `json.loads`). -/
def isJsonWs (c : Char) : Bool :=
  c = ' ' || c = '\t' || c = '\n' || c = '\r'

/-- Whitespace stripped by Python `str.strip()` (ASCII subset). -/
def isPyWs (c : Char) : Bool :=
  c = ' ' || c = '\t' || c = '\n' || c = '\r' || c = '\x0b' || c = '\x0c'

/-- Python `str.strip()` on a character list. -/
def pyStripL (cs : List Char) : List Char :=
  ((cs.dropWhile isPyWs).reverse.dropWhile isPyWs).reverse

/-- Python `str.strip()`. -/
def pyStrip (s : String) : String :=
  ⟨pyStripL s.data⟩

/-! ## JSON values and the `json.loads` model -/

/-- JSON values as produced by `json.loads` (numbers restricted to integers). -/
inductive Json where
  | null : Json
  | bool (b : Bool) : Json
  | num (n : Int) : Json
  | str (s : String) : Json
  | arr (elems : List Json) : Json
  | obj (members : List (String × Json)) : Json

/-- Decode of a JSON string escape character. -/
def escChar (c : Char) : Option Char :=
  if c = '"' then some '"'
  else if c = '\\' then some '\\'
  else if c = '/' then some '/'
  else if c = 'n' then some '\n'
  else if c = 't' then some '\t'
  else if c = 'r' then some '\r'
  else if c = 'b' then some '\x08'
  else if c = 'f' then some '\x0c'
  else none

/-- Read a JSON string body (the opening quote already consumed); returns the
decoded characters and the input after the closing quote.  Control characters
are rejected, as by `json.loads` in strict mode. -/
def parseStringBody : List Char → Option (List Char × List Char)
  | [] => none
  | c :: rest =>
    if c = '"' then some ([], rest)
    else if c = '\\' then
      match rest with
      | [] => none
      | e :: rest2 =>
        match escChar e with
        | none => none
        | some d =>
          match parseStringBody rest2 with
          | none => none
          | some (s, r) => some (d :: s, r)
    else if c.toNat < 32 then none
    else
      match parseStringBody rest with
      | none => none
      | some (s, r) => some (c :: s, r)

/-- Decimal value of a digit run. -/
def digitsToNat (ds : List Char) : Nat :=
  ds.foldl (fun a c => 10 * a + (c.toNat - 48)) 0

/-- True when the input begins with a float continuation; the model only reads
integer JSON numbers and rejects floats outright. -/
def floatHead : List Char → Bool
  | [] => false
  | c :: _ => c = '.' || c = 'e' || c = 'E'

/-- Read a JSON integer (optional minus sign, then a digit run). -/
def parseNumber (cs : List Char) : Option (Json × List Char) :=
  match cs with
  | '-' :: rest =>
    if rest.takeWhile Char.isDigit = [] then none
    else if floatHead (rest.dropWhile Char.isDigit) then none
    else some (.num (-(digitsToNat (rest.takeWhile Char.isDigit) : Int)),
      rest.dropWhile Char.isDigit)
  | _ =>
    if cs.takeWhile Char.isDigit = [] then none
    else if floatHead (cs.dropWhile Char.isDigit) then none
    else some (.num (digitsToNat (cs.takeWhile Char.isDigit)),
      cs.dropWhile Char.isDigit)

mutual

/-- Read one JSON value (leading whitespace allowed), fuel-indexed. -/
def parseValue : Nat → List Char → Option (Json × List Char)
  | 0, _ => none
  | Nat.succ fuel, cs =>
    match cs.dropWhile isJsonWs with
    | [] => none
    | c :: rest =>
      if c = 'n' then
        if rest.take 3 = ['u', 'l', 'l'] then some (.null, rest.drop 3) else none
      else if c = 't' then
        if rest.take 3 = ['r', 'u', 'e'] then some (.bool true, rest.drop 3) else none
      else if c = 'f' then
        if rest.take 4 = ['a', 'l', 's', 'e'] then some (.bool false, rest.drop 4)
        else none
      else if c = '"' then
        match parseStringBody rest with
        | none => none
        | some (s, r) => some (.str ⟨s⟩, r)
      else if c = '[' then
        match rest.dropWhile isJsonWs with
        | [] => none
        | c1 :: r1 =>
          if c1 = ']' then some (.arr [], r1)
          else
            match parseValue fuel (c1 :: r1) with
            | none => none
            | some (v, r2) => parseElemsTail fuel r2 [v]
      else if c = '\x7b' then
        match rest.dropWhile isJsonWs with
        | [] => none
        | c1 :: r1 =>
          if c1 = '\x7d' then some (.obj [], r1)
          else parseMembers fuel (c1 :: r1) []
      else parseNumber (c :: rest)
  termination_by structural fuel cs => fuel

/-- Read the rest of a JSON array after at least one element. -/
def parseElemsTail : Nat → List Char → List Json → Option (Json × List Char)
  | 0, _, _ => none
  | Nat.succ fuel, cs, acc =>
    match cs.dropWhile isJsonWs with
    | [] => none
    | c :: r =>
      if c = ']' then some (.arr acc, r)
      else if c = ',' then
        match parseValue fuel r with
        | none => none
        | some (v, r3) => parseElemsTail fuel r3 (acc ++ [v])
      else none
  termination_by structural fuel cs acc => fuel

/-- Read the members of a JSON object (after `\x7b`, at least one member). -/
def parseMembers : Nat → List Char → List (String × Json) → Option (Json × List Char)
  | 0, _, _ => none
  | Nat.succ fuel, cs, acc =>
    match cs.dropWhile isJsonWs with
    | [] => none
    | c :: rest =>
      if c = '"' then
        match parseStringBody rest with
        | none => none
        | some (k, r1) =>
          match r1.dropWhile isJsonWs with
          | [] => none
          | c2 :: r2 =>
            if c2 = ':' then
              match parseValue fuel r2 with
              | none => none
              | some (v, r3) =>
                match r3.dropWhile isJsonWs with
                | [] => none
                | c3 :: r4 =>
                  if c3 = ',' then parseMembers fuel r4 (acc ++ [(⟨k⟩, v)])
                  else if c3 = '\x7d' then some (.obj (acc ++ [(⟨k⟩, v)]), r4)
                  else none
            else none
      else none
  termination_by structural fuel cs acc => fuel

end

/-- Fuel that always suffices for `parseValue` (proved below). -/
def parseFuel (cs : List Char) : Nat :=
  2 * cs.length + 2

/-- Model of Python `json.loads` on a character list: one JSON value with only
whitespace around it, else failure. -/
def parseJsonL (cs : List Char) : Option Json :=
  match parseValue (parseFuel cs) cs with
  | some (v, rest) => if rest.dropWhile isJsonWs = [] then some v else none
  | none => none

/-- Model of Python `json.loads` on a string. -/
def parseJsonS (s : String) : Option Json :=
  parseJsonL s.data

/-! ## Schema layer (`quiz_generator/models/quiz.py`) -/

/-- Option-valued map over a list; any failure propagates (models a Python list
construction in which any element may raise). -/
def mapMOpt (f : α → Option β) : List α → Option (List β)
  | [] => some []
  | a :: as =>
    match f a with
    | none => none
    | some b =>
      match mapMOpt f as with
      | none => none
      | some bs => some (b :: bs)

/-- Pydantic model `ValidationResult`. -/
structure ValidationResult where
  is_correct : Option Bool
  explanation : String
  sources : List String
deriving DecidableEq

/-- Pydantic model `QuizQuestion` (the stored, already validated fields). -/
structure QuizQuestion where
  question : String
  option_a : String
  option_b : String
  option_c : String
  option_d : String
  correct_answer : String
  explanation : String
  validation : Option ValidationResult
deriving DecidableEq

/-- Field validator `not_empty`: reject fields that are empty after stripping,
store the stripped text. -/
def checkNotEmpty (v : String) : Except String String :=
  if pyStrip v = "" then .error "Field cannot be empty" else .ok (pyStrip v)

/-- Field validator `valid_answer` together with the field pattern
`^[a-d]$` (both impose the same membership condition; the value is stored
unchanged). -/
def checkValidAnswer (v : String) : Except String String :=
  if v = "a" ∨ v = "b" ∨ v = "c" ∨ v = "d" then .ok v
  else .error "Correct answer must be a, b, c, or d"

/-- Construction of a `QuizQuestion`, running all pydantic field validators;
an `.error` models a raised `ValidationError` (the spec's SchemaViolation). -/
def mkQuizQuestion (question option_a option_b option_c option_d
    correct_answer explanation : String) (validation : Option ValidationResult) :
    Except String QuizQuestion :=
  match checkNotEmpty question with
  | .error e => .error e
  | .ok q =>
    match checkNotEmpty option_a with
    | .error e => .error e
    | .ok a =>
      match checkNotEmpty option_b with
      | .error e => .error e
      | .ok b =>
        match checkNotEmpty option_c with
        | .error e => .error e
        | .ok c =>
          match checkNotEmpty option_d with
          | .error e => .error e
          | .ok d =>
            match checkValidAnswer correct_answer with
            | .error e => .error e
            | .ok ca =>
              match checkNotEmpty explanation with
              | .error e => .error e
              | .ok ex => .ok ⟨q, a, b, c, d, ca, ex, validation⟩

/-- Key lookup in a decoded JSON object.  `json.loads` builds a `dict`, so a
duplicated key keeps its last value. -/
def lookupJson (kvs : List (String × Json)) (k : String) : Option Json :=
  (kvs.reverse.find? (fun kv => kv.1 == k)).map (·.2)

/-- String extraction: pydantic v2 does not coerce non-strings to `str`. -/
def asStr : Json → Option String
  | .str s => some s
  | _ => none

/-- Value accepted for `Optional[bool]`: JSON `null`, `true` or `false`. -/
def boolOrNull : Json → Option (Option Bool)
  | .null => some none
  | .bool b => some (some b)
  | _ => none

/-- Pydantic validation of a `ValidationResult` from decoded JSON
(`ValidationResult(**result_dict)` / a nested `validation` value).  Extra keys
are ignored; `is_correct` and `sources` have defaults `None` and `[]`. -/
def validationResultFromJson (j : Json) : Option ValidationResult :=
  match j with
  | .obj kvs =>
    match (lookupJson kvs "explanation").bind asStr with
    | none => none
    | some ex =>
      match
        (match lookupJson kvs "is_correct" with
          | none => some (none : Option Bool)
          | some jv => boolOrNull jv) with
      | none => none
      | some ic =>
        match
          (match lookupJson kvs "sources" with
            | none => some ([] : List String)
            | some (.arr xs) => mapMOpt asStr xs
            | some _ => none) with
        | none => none
        | some src => some ⟨ic, ex, src⟩
  | _ => none

/-- Pydantic validation of one `QuizQuestion` from decoded JSON (used by
`QuizOutput.model_validate`). -/
def quizQuestionFromJson (j : Json) : Option QuizQuestion :=
  match j with
  | .obj kvs =>
    match (lookupJson kvs "question").bind asStr with
    | none => none
    | some q =>
      match (lookupJson kvs "option_a").bind asStr with
      | none => none
      | some a =>
        match (lookupJson kvs "option_b").bind asStr with
        | none => none
        | some b =>
          match (lookupJson kvs "option_c").bind asStr with
          | none => none
          | some c =>
            match (lookupJson kvs "option_d").bind asStr with
            | none => none
            | some d =>
              match (lookupJson kvs "correct_answer").bind asStr with
              | none => none
              | some ca =>
                match (lookupJson kvs "explanation").bind asStr with
                | none => none
                | some ex =>
                  match
                    (match lookupJson kvs "validation" with
                      | none => some (none : Option ValidationResult)
                      | some .null => some (none : Option ValidationResult)
                      | some jv => (validationResultFromJson jv).map some) with
                  | none => none
                  | some val => (mkQuizQuestion q a b c d ca ex val).toOption
  | _ => none

/-- `QuizOutput.model_validate`: an object with a `questions` list. -/
def quizOutputFromJson (j : Json) : Option (List QuizQuestion) :=
  match j with
  | .obj kvs =>
    match lookupJson kvs "questions" with
    | some (.arr xs) => mapMOpt quizQuestionFromJson xs
    | _ => none
  | _ => none

/-- Direct decode used by the generator: `json.loads` followed by
`QuizOutput.model_validate`. -/
def parseQuizOutputL (cs : List Char) : Option (List QuizQuestion) :=
  (parseJsonL cs).bind quizOutputFromJson

/-- String version of `parseQuizOutputL`. -/
def parseQuizOutput (raw : String) : Option (List QuizQuestion) :=
  (parseJsonS raw).bind quizOutputFromJson

/-! ## Greedy regex candidate

Both `re.findall(r"(\x7b[\s\S]*\x7d)", text)` and
`re.search(r"(\x7b[\s\S]*\x7d)", text)` produce at most one candidate: the
substring from the first `\x7b` to the last `\x7d` of the text (the greedy
star backtracks only from the right).  `greedyCandidateL` returns exactly
that substring. -/

/-- The unique match of the greedy brace regex, if any. -/
def greedyCandidateL (cs : List Char) : Option (List Char) :=
  let suf := cs.dropWhile (fun c => c != '\x7b')
  let upto := (suf.reverse.dropWhile (fun c => c != '\x7d')).reverse
  if upto = [] then none else some upto

/-- Boolean prefix test on character lists. -/
def isCharPrefix : List Char → List Char → Bool
  | [], _ => true
  | _ :: _, [] => false
  | p :: ps, c :: cs => p == c && isCharPrefix ps cs

/-- Text after the last occurrence of `pat` in `cs`, or `none` when `pat`
does not occur.  For the marker `Final Answer:` (which cannot overlap
itself) this agrees with Python's `text.split(pat)[-1]` plus the `pat in
text` containment test. -/
def afterLast (pat : List Char) : List Char → Option (List Char)
  | [] => none
  | c :: rest =>
    match afterLast pat rest with
    | some r => some r
    | none =>
      if isCharPrefix pat (c :: rest) then some ((c :: rest).drop pat.length)
      else none

/-! ## Quiz generator (`quiz_generator/generator.py`) -/

/-- Outcome of the external LLM chat-completion call: an exception message or
the raw response text. -/
inductive LLMResult where
  | err (msg : String) : LLMResult
  | ok (raw : String) : LLMResult

/-- Exception text produced by `json.loads` / `QuizOutput.model_validate`
when the raw response does not decode (stands for the library-generated
`str(e)`; no claim depends on its exact wording). -/
def parseFailureMsg : String :=
  "invalid response from model"

/-- The sentinel error question built in the generator's last-resort branch
(fields as stored after the pydantic validators strip them). -/
def sentinelQuestion (e : String) : QuizQuestion :=
  ⟨pyStrip ("Error generating quiz question: " ++ e),
   "Contact administrator",
   "Try again later",
   "Provide a different learning objective",
   "Check API configuration",
   "c",
   "Failed to generate valid quiz data due to an error in processing the request.",
   none⟩

/-- Regex fallback inside the generator's `except` block: take the greedy
candidate of the raw content and re-run `json.loads` plus schema validation. -/
def regexFallback (raw : String) : Option (List QuizQuestion) :=
  (greedyCandidateL raw.data).bind parseQuizOutputL

/-- The generator's `except` block: if the raw content exists, try the regex
fallback; otherwise (or when it fails too) return the sentinel question. -/
def errorFallback (rawContent : Option String) (e : String) : List QuizQuestion :=
  match rawContent with
  | some raw =>
    match regexFallback raw with
    | some qs => qs
    | none => [sentinelQuestion e]
  | none => [sentinelQuestion e]

/-- The user prompt sent to the LLM; note the count is interpolated without
any clamping. -/
def userPrompt (learning_objective : String) (num_questions : Int) : String :=
  "Generate " ++ toString num_questions ++
    " questions for the learning objective: '" ++ learning_objective ++ "'."

/-- The full extraction chain applied to a raw LLM response: direct parse,
else the greedy-regex fallback (the spec's Response Extractor). -/
def extractQuestions (raw : String) : Option (List QuizQuestion) :=
  match parseQuizOutput raw with
  | some qs => some qs
  | none => regexFallback raw

/-- `generate_quiz` of `quiz_generator/generator.py`.  `llm` maps the user
prompt to the completion outcome; `valStage` is the
`loop.run_until_complete(validate_quiz_questions ...)` stage, whose `.error`
case models an exception escaping the validation orchestration. -/
def generate_quiz (llm : String → LLMResult)
    (valStage : List QuizQuestion → Except String (List QuizQuestion))
    (learning_objective : String) (num_questions : Int) (validate : Bool) :
    List QuizQuestion :=
  match llm (userPrompt learning_objective num_questions) with
  | .err _e => errorFallback none _e
  | .ok raw_content =>
    match parseQuizOutput raw_content with
    | none => errorFallback (some raw_content) parseFailureMsg
    | some generated_questions =>
      if validate then
        match valStage generated_questions with
        | .ok validated_questions => validated_questions
        | .error e => errorFallback (some raw_content) e
      else generated_questions

/-! ## Answer validator, canonical variant (`quiz_generator/validator.py`) -/

namespace GenValidator

/-- Result substituted on `json.JSONDecodeError`. -/
def jsonDecodeFailResult : ValidationResult :=
  ⟨none,
   "Could not determine if the answer is correct. The validation system failed to parse the results.",
   []⟩

/-- Result substituted by the generic `except Exception` handler. -/
def otherFailResult (e : String) : ValidationResult :=
  ⟨none, "Could not validate the answer: " ++ e, []⟩

/-- Exception text of a pydantic `ValidationError` raised by
`ValidationResult(**result_dict)` (stands for the library-generated text). -/
def schemaViolationMsg : String :=
  "validation error for ValidationResult"

/-- Verdict-text extraction: everything after the last `Final Answer:` marker
(stripped) when the marker occurs, else the greedy brace-regex match;
`none` models the `ValueError("No structured response found")`. -/
def extractFinalAnswer (raw_result : String) : Option String :=
  match afterLast "Final Answer:".data raw_result.data with
  | some t => some (pyStrip ⟨t⟩)
  | none => (greedyCandidateL raw_result.data).map (fun l => ⟨l⟩)

/-- `validate_answer` of `quiz_generator/validator.py`; `agentResult` is the
outcome of `agent.run` (exception message or result text). -/
def validate_answer (agentResult : Except String String) : ValidationResult :=
  match agentResult with
  | .error e => otherFailResult e
  | .ok raw_result =>
    match extractFinalAnswer raw_result with
    | none => otherFailResult "No structured response found"
    | some final_answer =>
      match parseJsonS final_answer with
      | none => jsonDecodeFailResult
      | some j =>
        match validationResultFromJson j with
        | some vr => vr
        | none => otherFailResult schemaViolationMsg

end GenValidator

/-! ## Validation orchestration (identical in both validator modules) -/

/-- Python `getattr(question, "option_" + question.correct_answer)`;
`none` models the `AttributeError` raised for any other attribute name. -/
def getOptionField (q : QuizQuestion) (name : String) : Option String :=
  if name = "a" then some q.option_a
  else if name = "b" then some q.option_b
  else if name = "c" then some q.option_c
  else if name = "d" then some q.option_d
  else none

/-- `validate_question`: look up the text of the correct option, run
`validate_answer` (passed in as `va`), and return the question with the
`validation` field set and every other field unchanged. -/
def validate_question (va : String → String → String → ValidationResult)
    (question : QuizQuestion) : Option QuizQuestion :=
  match getOptionField question question.correct_answer with
  | none => none
  | some correct_option =>
    some ⟨question.question, question.option_a, question.option_b,
          question.option_c, question.option_d, question.correct_answer,
          question.explanation,
          some (va question.question correct_option question.explanation)⟩

/-- `validate_quiz_questions`: one `validate_question` task per question,
collected by `asyncio.gather` in input order (a raised exception in any task
propagates out of the gather). -/
def validate_quiz_questions (va : String → String → String → ValidationResult) :
    List QuizQuestion → Option (List QuizQuestion)
  | [] => some []
  | q :: rest =>
    match validate_question va q with
    | none => none
    | some q' =>
      match validate_quiz_questions va rest with
      | none => none
      | some rest' => some (q' :: rest')

/-! ## Answer validator, app variant (`app/validator.py`) -/

namespace AppValidator

/-- Result substituted by the single `except Exception` handler. -/
def failResult (e : String) : ValidationResult :=
  ⟨none, "Validation failed: " ++ e, []⟩

/-- Exception text of a `json.JSONDecodeError` (library-generated). -/
def jsonDecodeMsg : String :=
  "Expecting value"

/-- Exception text of a pydantic `ValidationError` (library-generated). -/
def schemaViolationMsg : String :=
  "validation error for ValidationResult"

/-- The URL sanity filter: keep a source iff it starts with `http` and is
longer than 10 characters. -/
def urlKeep (s : String) : Bool :=
  isCharPrefix "http".data s.data && decide (s.length > 10)

/-- Python iteration over `result_dict.get("sources", [])`: a list yields its
elements (a non-string element raises inside the comprehension), a string
yields its one-character substrings (none of which can pass `urlKeep`, hence
`[]`), a dict yields its keys, anything else raises `TypeError`. -/
def sourceStrings : Json → Option (List String)
  | .arr xs => mapMOpt asStr xs
  | .str _ => some []
  | .obj kvs => some (kvs.map (·.1))
  | _ => none

/-- Source cleaning followed by `ValidationResult(**result_dict)`. -/
def cleanAndBuild (j : Json) : Option ValidationResult :=
  match j with
  | .obj kvs =>
    match sourceStrings ((lookupJson kvs "sources").getD (.arr [])) with
    | none => none
    | some candidates =>
      match (lookupJson kvs "explanation").bind asStr with
      | none => none
      | some ex =>
        match
          (match lookupJson kvs "is_correct" with
            | none => some (none : Option Bool)
            | some jv => boolOrNull jv) with
        | none => none
        | some ic => some ⟨ic, ex, candidates.filter urlKeep⟩
  | _ => none

/-- `validate_answer` of `app/validator.py`: regex extraction only (no
`Final Answer:` branch), then decode, clean sources and build the result;
every exception collapses into `failResult`. -/
def validate_answer (agentResult : Except String String) : ValidationResult :=
  match agentResult with
  | .error e => failResult e
  | .ok raw_result =>
    match greedyCandidateL raw_result.data with
    | none => failResult "No JSON found in response"
    | some cand =>
      match parseJsonL cand with
      | none => failResult jsonDecodeMsg
      | some j =>
        match cleanAndBuild j with
        | some vr => vr
        | none => failResult schemaViolationMsg

end AppValidator

/-! ## HTTP endpoint glue (`app/app.py`) -/

/-- Decoded request body of `POST /generate-quiz` (absent keys are `none`). -/
structure QuizRequest where
  learning_objective : Option String
  num_questions : Option Int
  validate : Option Bool

/-- Endpoint outcome: 200 with questions, or 400 with an error message. -/
inductive QuizResponse where
  | ok (questions : List QuizQuestion) : QuizResponse
  | badRequest (error : String) : QuizResponse
deriving DecidableEq

/-- `generate_quiz_endpoint`: empty-or-missing objective gives 400; the
question count is clamped to [1, 10] (`DEFAULT_NUM_QUESTIONS = 3`,
`MAX_NUM_QUESTIONS = 10`) and generation always answers 200. -/
def generate_quiz_endpoint (llm : String → LLMResult)
    (valStage : List QuizQuestion → Except String (List QuizQuestion))
    (req : QuizRequest) : QuizResponse :=
  let learning_objective := req.learning_objective.getD ""
  if learning_objective = "" then
    .badRequest "Learning objective is required"
  else
    let num_questions := max 1 (min 10 (req.num_questions.getD 3))
    .ok (generate_quiz llm valStage learning_objective num_questions
      (req.validate.getD false))

/-! ## List helper lemmas -/

theorem dropWhile_head_neg {p : Char → Bool} {l r : List Char} {c : Char}
    (h : l.dropWhile p = c :: r) : p c = false := by
  induction l with
  | nil => simp [List.dropWhile] at h
  | cons a t ih =>
    cases hpa : p a with
    | true => rw [List.dropWhile_cons_of_pos hpa] at h; exact ih h
    | false =>
      rw [List.dropWhile_cons_of_neg (by simp [hpa])] at h
      cases h; exact hpa

theorem dropWhile_app_all {p : Char → Bool} {w : List Char}
    (hw : ∀ c ∈ w, p c = true) (l : List Char) :
    (w ++ l).dropWhile p = l.dropWhile p := by
  induction w with
  | nil => simp
  | cons a t ih =>
    rw [List.cons_append, List.dropWhile_cons_of_pos (hw a (by simp))]
    exact ih (fun c hc => hw c (by simp [hc]))

theorem dropWhile_cons_neg_eq {p : Char → Bool} {c : Char} (hc : p c = false)
    (l : List Char) : (c :: l).dropWhile p = c :: l :=
  List.dropWhile_cons_of_neg (by simp [hc])

/-- Decomposition of a successful `dropWhile` into the dropped prefix and the
surviving suffix. -/
theorem dropWhile_decomp {p : Char → Bool} {l s : List Char}
    (h : l.dropWhile p = s) :
    ∃ w, l = w ++ s ∧ (∀ c ∈ w, p c = true) := by
  refine ⟨l.takeWhile p, ?_, fun c hc => List.mem_takeWhile_imp hc⟩
  rw [← h, List.takeWhile_append_dropWhile]

/-! ## Python strip lemmas -/

theorem dropWhile_idem (p : Char → Bool) (l : List Char) :
    (l.dropWhile p).dropWhile p = l.dropWhile p := by
  induction l with
  | nil => rfl
  | cons a t ih =>
    cases hpa : p a with
    | true => rw [List.dropWhile_cons_of_pos hpa]; exact ih
    | false => rw [dropWhile_cons_neg_eq hpa, dropWhile_cons_neg_eq hpa]

/-- Stripping a list whose head is not whitespace keeps that head. -/
theorem pyStripL_cons_head {c : Char} (hc : isPyWs c = false) (r : List Char) :
    ∃ w, pyStripL (c :: r) = c :: w := by
  unfold pyStripL
  rw [dropWhile_cons_neg_eq hc]
  cases hB : (c :: r).reverse.dropWhile isPyWs with
  | nil =>
    exfalso
    have hall : ∀ x ∈ (c :: r).reverse, isPyWs x = true :=
      (List.dropWhile_eq_nil_iff).mp hB
    have := hall c (by simp)
    simp [hc] at this
  | cons b s =>
    obtain ⟨u, hu, _⟩ := dropWhile_decomp hB
    have hrev : (b :: s).reverse ++ u.reverse = c :: r := by
      have := congrArg List.reverse hu.symm
      simpa [List.reverse_append] using this
    obtain ⟨x, xs, hrv⟩ : ∃ x xs, (b :: s).reverse = x :: xs := by
      cases h' : (b :: s).reverse with
      | nil => simp at h'
      | cons y ys => exact ⟨y, ys, rfl⟩
    rw [hrv, List.cons_append] at hrev
    injection hrev with hx _
    exact ⟨xs, by rw [hrv, hx]⟩

/-- Python `strip` is idempotent. -/
theorem pyStripL_idem (l : List Char) : pyStripL (pyStripL l) = pyStripL l := by
  cases hA : l.dropWhile isPyWs with
  | nil =>
    have h1 : pyStripL l = [] := by unfold pyStripL; rw [hA]; rfl
    rw [h1]; rfl
  | cons c r =>
    have hc : isPyWs c = false := dropWhile_head_neg hA
    have hl : pyStripL l = pyStripL (c :: r) := by
      unfold pyStripL
      rw [hA, dropWhile_cons_neg_eq hc]
    obtain ⟨w, hw⟩ := pyStripL_cons_head hc r
    have hfix : pyStripL l = c :: w := by rw [hl, hw]
    rw [hfix]
    have hrevstrip : (c :: w).reverse = (c :: r).reverse.dropWhile isPyWs := by
      have : pyStripL (c :: r) = ((c :: r).reverse.dropWhile isPyWs).reverse := by
        unfold pyStripL
        rw [dropWhile_cons_neg_eq hc]
      rw [← hw, this, List.reverse_reverse]
    unfold pyStripL
    rw [dropWhile_cons_neg_eq hc, hrevstrip, dropWhile_idem, ← hrevstrip]
    simp

/-- A list whose head is not whitespace strips to a non-empty list. -/
theorem pyStripL_ne_nil {c : Char} (hc : isPyWs c = false) (t : List Char) :
    pyStripL (c :: t) ≠ [] := by
  obtain ⟨w, hw⟩ := pyStripL_cons_head hc t
  rw [hw]
  simp

/-! ## Greedy brace-candidate lemmas -/

/-- When the prose before the object has no opening brace, the object itself
starts with `\x7b` and ends with `\x7d`, and the prose after it has no
closing brace, the greedy regex candidate is exactly the object text. -/
theorem greedyCandidateL_of_shape {p1 body p2 : List Char}
    (h1 : ∀ c ∈ p1, (c == '\x7b') = false)
    (hh : body.head? = some '\x7b')
    (hl : body.getLast? = some '\x7d')
    (h2 : ∀ c ∈ p2, (c == '\x7d') = false) :
    greedyCandidateL (p1 ++ body ++ p2) = some body := by
  obtain ⟨bt, hbody⟩ : ∃ bt, body = '\x7b' :: bt := by
    cases hb : body with
    | nil => rw [hb] at hh; simp at hh
    | cons x xs =>
      rw [hb] at hh; simp at hh
      exact ⟨xs, by rw [hh]⟩
  obtain ⟨bi, hbodyr⟩ : ∃ bi, body.reverse = '\x7d' :: bi := by
    rw [← List.head?_reverse] at hl
    cases hb : body.reverse with
    | nil => rw [hb] at hl; simp at hl
    | cons x xs =>
      rw [hb] at hl; simp at hl
      exact ⟨xs, by rw [hl]⟩
  have h1' : ∀ c ∈ p1, (c != '\x7b') = true := by
    intro c hc
    simpa using h1 c hc
  have h2' : ∀ c ∈ p2.reverse, (c != '\x7d') = true := by
    intro c hc
    rw [List.mem_reverse] at hc
    simpa using h2 c hc
  have hsuf : (p1 ++ body ++ p2).dropWhile (fun c => c != '\x7b') = body ++ p2 := by
    rw [List.append_assoc]
    rw [dropWhile_app_all h1']
    rw [hbody, List.cons_append]
    exact dropWhile_cons_neg_eq (by simp) _
  have hupto :
      (((p1 ++ body ++ p2).dropWhile
          (fun c => c != '\x7b')).reverse.dropWhile (fun c => c != '\x7d')).reverse
        = body := by
    rw [hsuf, List.reverse_append]
    rw [dropWhile_app_all h2']
    rw [hbodyr, dropWhile_cons_neg_eq (by simp) _, ← hbodyr]
    simp
  simp only [greedyCandidateL, hupto]
  rw [if_neg (by rw [hbody]; simp)]

/-! ## Token-level determinism lemmas -/


theorem takeWhile_cons_neg_eq {p : Char → Bool} {c : Char} (hc : p c = false)
    (l : List Char) : (c :: l).takeWhile p = [] := by
  rw [List.takeWhile_cons_of_neg (by simp [hc])]

theorem takeWhile_app_all {p : Char → Bool} {w : List Char}
    (hw : ∀ c ∈ w, p c = true) (l : List Char) :
    (w ++ l).takeWhile p = w ++ l.takeWhile p := by
  induction w with
  | nil => simp
  | cons a t ih =>
    rw [List.cons_append, List.takeWhile_cons_of_pos (hw a (by simp)),
      ih (fun c hc => hw c (by simp [hc])), List.cons_append]

theorem floatHead_cons (x : Char) (l : List Char) :
    floatHead (x :: l) = (x = '.' || x = 'e' || x = 'E') := rfl

theorem parseStringBody_det (cs : List Char) :
    ∀ s rest, parseStringBody cs = some (s, rest) →
      ∃ pre, cs = pre ++ rest ∧ pre ≠ [] ∧
        ∀ X, parseStringBody (pre ++ X) = some (s, X) := by
  induction cs using parseStringBody.induct with
  | case1 =>
    intro s rest h
    simp [parseStringBody] at h
  | case2 rest2 =>
    intro s rest h
    unfold parseStringBody at h
    simp at h
    obtain ⟨hs, hr⟩ := h
    subst hs; subst hr
    refine ⟨['"'], rfl, by simp, fun X => by unfold parseStringBody; simp⟩
  | case3 h' =>
    intro s rest h
    simp [parseStringBody] at h
  | case4 e rest2 hesc hne =>
    intro s rest h
    unfold parseStringBody at h
    simp [hesc] at h
  | case5 e rest2 d hesc hpsb hne ih =>
    intro s rest h
    unfold parseStringBody at h
    simp [hesc, hpsb] at h
  | case6 e rest2 d hesc s0 r0 hpsb hne ih =>
    intro s rest h
    unfold parseStringBody at h
    simp [hesc, hpsb] at h
    obtain ⟨hs, hr⟩ := h
    subst hs; subst hr
    obtain ⟨pre2, heq, hne2, hre⟩ := ih s0 r0 hpsb
    refine ⟨'\\' :: e :: pre2, by rw [heq]; rfl, by simp, fun X => ?_⟩
    unfold parseStringBody
    simp [hesc, hre X]
  | case7 e rest2 hq hb hctl =>
    intro s rest h
    unfold parseStringBody at h
    simp [hq, hb, hctl] at h
  | case8 e rest2 hq hb hctl hpsb ih =>
    intro s rest h
    unfold parseStringBody at h
    simp [hq, hb, hctl, hpsb] at h
  | case9 e rest2 hq hb hctl s0 r0 hpsb ih =>
    intro s rest h
    unfold parseStringBody at h
    simp [hq, hb, hctl, hpsb] at h
    obtain ⟨hs, hr⟩ := h
    subst hs; subst hr
    obtain ⟨pre2, heq, hne2, hre⟩ := ih s0 r0 hpsb
    refine ⟨e :: pre2, by rw [heq]; rfl, by simp, fun X => ?_⟩
    unfold parseStringBody
    simp [hq, hb, hctl, hre X]

theorem parseNumber_shape {cs : List Char} {v : Json} {rest : List Char}
    (h : parseNumber cs = some (v, rest)) : ∃ n, v = Json.num n := by
  unfold parseNumber at h
  split at h
  · split at h
    · exact absurd h (by simp)
    · split at h
      · exact absurd h (by simp)
      · simp only [Option.some.injEq, Prod.mk.injEq] at h
        exact ⟨_, h.1.symm⟩
  · split at h
    · exact absurd h (by simp)
    · split at h
      · exact absurd h (by simp)
      · simp only [Option.some.injEq, Prod.mk.injEq] at h
        exact ⟨_, h.1.symm⟩

theorem parseNumber_det {cs : List Char} {v : Json} {rest : List Char}
    (h : parseNumber cs = some (v, rest)) :
    ∃ pre, cs = pre ++ rest ∧ pre ≠ [] ∧
      ∀ X t, rest = X ++ t → parseNumber (pre ++ X) = some (v, X) := by
  unfold parseNumber at h
  split at h
  case h_1 cs' rest0 =>
    split at h
    case isTrue => exact absurd h (by simp)
    case isFalse hds =>
      split at h
      case isTrue => exact absurd h (by simp)
      case isFalse hfh =>
        simp only [Option.some.injEq, Prod.mk.injEq] at h
        obtain ⟨hv, hr⟩ := h
        subst hv; subst hr
        have hdigits : ∀ c ∈ rest0.takeWhile Char.isDigit, Char.isDigit c = true :=
          fun c hc => List.mem_takeWhile_imp hc
        refine ⟨'-' :: rest0.takeWhile Char.isDigit,
          by rw [List.cons_append, List.takeWhile_append_dropWhile], by simp,
          fun X t hXt => ?_⟩
        have hshape : X = [] ∨ ∃ x xs, X = x :: xs ∧ Char.isDigit x = false ∧
            floatHead (x :: xs) = false := by
          cases hX : X with
          | nil => exact Or.inl rfl
          | cons x xs =>
            right
            rw [hX, List.cons_append] at hXt
            have hx : Char.isDigit x = false := dropWhile_head_neg hXt
            have hfl : floatHead (x :: (xs ++ t)) = false := by
              rw [← hXt]
              simpa using hfh
            rw [floatHead_cons] at hfl
            exact ⟨x, xs, rfl, hx, by rw [floatHead_cons]; exact hfl⟩
        have htw : (rest0.takeWhile Char.isDigit ++ X).takeWhile Char.isDigit
            = rest0.takeWhile Char.isDigit := by
          rw [takeWhile_app_all hdigits]
          rcases hshape with rfl | ⟨x, xs, rfl, hx, _⟩
          · simp
          · rw [takeWhile_cons_neg_eq hx]; simp
        have hdw : (rest0.takeWhile Char.isDigit ++ X).dropWhile Char.isDigit = X := by
          rw [dropWhile_app_all hdigits]
          rcases hshape with rfl | ⟨x, xs, rfl, hx, _⟩
          · simp
          · exact dropWhile_cons_neg_eq hx _
        have hfhX : floatHead X = false := by
          rcases hshape with rfl | ⟨x, xs, rfl, _, hfx⟩
          · rfl
          · exact hfx
        rw [List.cons_append]
        unfold parseNumber
        split
        case h_1 rest1 heq =>
          obtain ⟨h2⟩ : rest0.takeWhile Char.isDigit ++ X = rest1 := by
            injection heq
          rw [htw, hdw, if_neg hds, if_neg (by rw [hfhX]; simp)]
        case h_2 hnm =>
          exact absurd (hnm _ rfl) (by simp)
  case h_2 hnotminus =>
    split at h
    case isTrue => exact absurd h (by simp)
    case isFalse hds =>
      split at h
      case isTrue => exact absurd h (by simp)
      case isFalse hfh =>
        simp only [Option.some.injEq, Prod.mk.injEq] at h
        obtain ⟨hv, hr⟩ := h
        subst hv; subst hr
        have hdigits : ∀ c ∈ cs.takeWhile Char.isDigit, Char.isDigit c = true :=
          fun c hc => List.mem_takeWhile_imp hc
        refine ⟨cs.takeWhile Char.isDigit,
          by rw [List.takeWhile_append_dropWhile], hds, fun X t hXt => ?_⟩
        have hshape : X = [] ∨ ∃ x xs, X = x :: xs ∧ Char.isDigit x = false ∧
            floatHead (x :: xs) = false := by
          cases hX : X with
          | nil => exact Or.inl rfl
          | cons x xs =>
            right
            rw [hX, List.cons_append] at hXt
            have hx : Char.isDigit x = false := dropWhile_head_neg hXt
            have hfl : floatHead (x :: (xs ++ t)) = false := by
              rw [← hXt]
              simpa using hfh
            rw [floatHead_cons] at hfl
            exact ⟨x, xs, rfl, hx, by rw [floatHead_cons]; exact hfl⟩
        have htw : (cs.takeWhile Char.isDigit ++ X).takeWhile Char.isDigit
            = cs.takeWhile Char.isDigit := by
          rw [takeWhile_app_all hdigits]
          rcases hshape with rfl | ⟨x, xs, rfl, hx, _⟩
          · simp
          · rw [takeWhile_cons_neg_eq hx]; simp
        have hdw : (cs.takeWhile Char.isDigit ++ X).dropWhile Char.isDigit = X := by
          rw [dropWhile_app_all hdigits]
          rcases hshape with rfl | ⟨x, xs, rfl, hx, _⟩
          · simp
          · exact dropWhile_cons_neg_eq hx _
        have hfhX : floatHead X = false := by
          rcases hshape with rfl | ⟨x, xs, rfl, _, hfx⟩
          · rfl
          · exact hfx
        obtain ⟨c0, cr, hcs⟩ : ∃ c0 cr, cs.takeWhile Char.isDigit = c0 :: cr := by
          cases hcc : cs.takeWhile Char.isDigit with
          | nil => exact absurd hcc hds
          | cons y ys => exact ⟨y, ys, rfl⟩
        have hc0 : Char.isDigit c0 = true := hdigits c0 (by rw [hcs]; simp)
        unfold parseNumber
        split
        case h_1 rest1 heq =>
          exfalso
          rw [hcs, List.cons_append] at heq
          have hcm : c0 = '-' := by injection heq
          rw [hcm] at hc0
          simp [Char.isDigit] at hc0
        case h_2 =>
          rw [htw, hdw, if_neg hds, if_neg (by rw [hfhX]; simp)]


/-! ## Parser prefix determinism -/


theorem dropWhile_reassemble {w : List Char} {c : Char}
    (hw : ∀ x ∈ w, isJsonWs x = true) (hc : isJsonWs c = false)
    (mid X : List Char) :
    ((w ++ c :: mid) ++ X).dropWhile isJsonWs = c :: (mid ++ X) := by
  rw [List.append_assoc, List.cons_append, dropWhile_app_all hw,
    dropWhile_cons_neg_eq hc]

theorem cons_eq_append_head {c : Char} {l pre r : List Char}
    (h : c :: l = pre ++ r) (hne : pre ≠ []) : ∃ pt, pre = c :: pt := by
  cases pre with
  | nil => exact absurd rfl hne
  | cons p pt =>
    rw [List.cons_append] at h
    injection h with h1 _
    exact ⟨pt, by rw [h1]⟩

theorem parse_det (fuel : Nat) :
    (∀ cs v rest, parseValue fuel cs = some (v, rest) →
      ∃ pre, cs = pre ++ rest ∧ pre ≠ [] ∧
        ∀ X t, rest = X ++ t → parseValue fuel (pre ++ X) = some (v, X)) ∧
    (∀ cs acc v rest, parseElemsTail fuel cs acc = some (v, rest) →
      ∃ pre, cs = pre ++ rest ∧ pre ≠ [] ∧
        ∀ X t, rest = X ++ t → parseElemsTail fuel (pre ++ X) acc = some (v, X)) ∧
    (∀ cs acc v rest, parseMembers fuel cs acc = some (v, rest) →
      ∃ pre, cs = pre ++ rest ∧ pre ≠ [] ∧
        ∀ X t, rest = X ++ t → parseMembers fuel (pre ++ X) acc = some (v, X)) := by
  induction fuel with
  | zero =>
    refine ⟨?_, ?_, ?_⟩
    · intro cs v rest h; simp [parseValue] at h
    · intro cs acc v rest h; simp [parseElemsTail] at h
    · intro cs acc v rest h; simp [parseMembers] at h
  | succ f ih =>
    obtain ⟨ihV, ihE, ihM⟩ := ih
    refine ⟨?_, ?_, ?_⟩
    · intro cs v rest h
      unfold parseValue at h
      split at h
      next heq => exact absurd h (by simp)
      next c rest1 heq =>
        obtain ⟨w, hcs, hw⟩ := dropWhile_decomp heq
        have hcws : isJsonWs c = false := dropWhile_head_neg heq
        split at h
        next hcn =>
          subst hcn
          split at h
          next htake =>
            simp only [Option.some.injEq, Prod.mk.injEq] at h
            obtain ⟨hv, hr⟩ := h
            subst hv; subst hr
            have hr1 : rest1 = ['u', 'l', 'l'] ++ rest1.drop 3 := by
              rw [← htake]; exact (List.take_append_drop 3 rest1).symm
            refine ⟨w ++ 'n' :: ['u', 'l', 'l'], ?_, by simp, fun X t hXt => ?_⟩
            · rw [hcs]; rw [hr1]; simp
            · have hscr := dropWhile_reassemble hw hcws ['u', 'l', 'l'] X
              unfold parseValue
              rw [hscr]
              simp
          next => exact absurd h (by simp)
        next hcn =>
        split at h
        next hct =>
          subst hct
          split at h
          next htake =>
            simp only [Option.some.injEq, Prod.mk.injEq] at h
            obtain ⟨hv, hr⟩ := h
            subst hv; subst hr
            have hr1 : rest1 = ['r', 'u', 'e'] ++ rest1.drop 3 := by
              rw [← htake]; exact (List.take_append_drop 3 rest1).symm
            refine ⟨w ++ 't' :: ['r', 'u', 'e'], ?_, by simp, fun X t hXt => ?_⟩
            · rw [hcs]; rw [hr1]; simp
            · have hscr := dropWhile_reassemble hw hcws ['r', 'u', 'e'] X
              unfold parseValue
              rw [hscr]
              simp
          next => exact absurd h (by simp)
        next hct =>
        split at h
        next hcf =>
          subst hcf
          split at h
          next htake =>
            simp only [Option.some.injEq, Prod.mk.injEq] at h
            obtain ⟨hv, hr⟩ := h
            subst hv; subst hr
            have hr1 : rest1 = ['a', 'l', 's', 'e'] ++ rest1.drop 4 := by
              rw [← htake]; exact (List.take_append_drop 4 rest1).symm
            refine ⟨w ++ 'f' :: ['a', 'l', 's', 'e'], ?_, by simp, fun X t hXt => ?_⟩
            · rw [hcs]; rw [hr1]; simp
            · have hscr := dropWhile_reassemble hw hcws ['a', 'l', 's', 'e'] X
              unfold parseValue
              rw [hscr]
              simp
          next => exact absurd h (by simp)
        next hcf =>
        split at h
        next hcq =>
          subst hcq
          split at h
          next hpsb => exact absurd h (by simp)
          next s0 r0 hpsb =>
            simp only [Option.some.injEq, Prod.mk.injEq] at h
            obtain ⟨hv, hr⟩ := h
            subst hv; subst hr
            obtain ⟨preK, hKeq, hKne, hKre⟩ := parseStringBody_det rest1 _ _ hpsb
            refine ⟨w ++ '"' :: preK, ?_, by simp, fun X t hXt => ?_⟩
            · rw [hcs, hKeq]; simp
            · have hscr := dropWhile_reassemble hw hcws preK X
              unfold parseValue
              rw [hscr]
              simp [hKre X]
        next hcq =>
        split at h
        next hcb =>
          subst hcb
          split at h
          next heq2 => exact absurd h (by simp)
          next c1 r1 heq2 =>
            obtain ⟨w2, hr1eq, hw2⟩ := dropWhile_decomp heq2
            have hc1ws : isJsonWs c1 = false := dropWhile_head_neg heq2
            split at h
            next hc1b =>
              subst hc1b
              simp only [Option.some.injEq, Prod.mk.injEq] at h
              obtain ⟨hv, hr⟩ := h
              subst hv; subst hr
              refine ⟨w ++ '[' :: (w2 ++ [']']), ?_, by simp, fun X t hXt => ?_⟩
              · rw [hcs, hr1eq]; simp
              · have hscr := dropWhile_reassemble hw hcws (w2 ++ [']']) X
                unfold parseValue
                rw [hscr]
                have hscr2 : ((w2 ++ [']']) ++ X).dropWhile isJsonWs = ']' :: X := by
                  rw [List.append_assoc, dropWhile_app_all hw2]
                  exact dropWhile_cons_neg_eq hc1ws X
                simp only [List.cons_append, List.append_assoc] at hscr2 ⊢
                rw [hscr2]
                simp
            next hc1b =>
              split at h
              next hpv => exact absurd h (by simp)
              next v1 r2 hpv =>
                obtain ⟨preV, hVeq, hVne, hVre⟩ := ihV _ _ _ hpv
                obtain ⟨preE, hEeq, hEne, hEre⟩ := ihE _ _ _ _ h
                obtain ⟨pVt, hpVt⟩ := cons_eq_append_head hVeq hVne
                refine ⟨w ++ '[' :: (w2 ++ preV ++ preE), ?_, by simp,
                  fun X t hXt => ?_⟩
                · rw [hcs, hr1eq, hVeq, hEeq]; simp
                · have hscr := dropWhile_reassemble hw hcws (w2 ++ preV ++ preE) X
                  unfold parseValue
                  rw [hscr]
                  have hscr2 : ((w2 ++ preV ++ preE) ++ X).dropWhile isJsonWs
                      = c1 :: (pVt ++ (preE ++ X)) := by
                    rw [hpVt]
                    simp only [List.append_assoc, List.cons_append]
                    rw [dropWhile_app_all hw2]
                    exact dropWhile_cons_neg_eq hc1ws _
                  simp only [List.cons_append, List.append_assoc] at hscr2 ⊢
                  rw [hscr2]
                  have hpv2 : parseValue f (c1 :: (pVt ++ (preE ++ X)))
                      = some (v1, preE ++ X) := by
                    have := hVre (preE ++ X) t (by rw [hEeq, hXt, List.append_assoc])
                    rw [hpVt] at this
                    simpa using this
                  have hpe2 : parseElemsTail f (preE ++ X) [v1] = some (v, X) :=
                    hEre X t hXt
                  simp [hc1b, hpv2, hpe2]
        next hcb =>
        split at h
        next hco =>
          subst hco
          split at h
          next heq2 => exact absurd h (by simp)
          next c1 r1 heq2 =>
            obtain ⟨w2, hr1eq, hw2⟩ := dropWhile_decomp heq2
            have hc1ws : isJsonWs c1 = false := dropWhile_head_neg heq2
            split at h
            next hc1d =>
              subst hc1d
              simp only [Option.some.injEq, Prod.mk.injEq] at h
              obtain ⟨hv, hr⟩ := h
              subst hv; subst hr
              refine ⟨w ++ '\x7b' :: (w2 ++ ['\x7d']), ?_, by simp, fun X t hXt => ?_⟩
              · rw [hcs, hr1eq]; simp
              · have hscr := dropWhile_reassemble hw hcws (w2 ++ ['\x7d']) X
                unfold parseValue
                rw [hscr]
                have hscr2 : ((w2 ++ ['\x7d']) ++ X).dropWhile isJsonWs = '\x7d' :: X := by
                  rw [List.append_assoc, dropWhile_app_all hw2]
                  exact dropWhile_cons_neg_eq hc1ws X
                simp only [List.cons_append, List.append_assoc] at hscr2 ⊢
                rw [hscr2]
                simp
            next hc1d =>
              obtain ⟨preM, hMeq, hMne, hMre⟩ := ihM _ _ _ _ h
              obtain ⟨pMt, hpMt⟩ := cons_eq_append_head hMeq hMne
              refine ⟨w ++ '\x7b' :: (w2 ++ preM), ?_, by simp, fun X t hXt => ?_⟩
              · rw [hcs, hr1eq, hMeq]; simp
              · have hscr := dropWhile_reassemble hw hcws (w2 ++ preM) X
                unfold parseValue
                rw [hscr]
                have hscr2 : ((w2 ++ preM) ++ X).dropWhile isJsonWs
                    = c1 :: (pMt ++ X) := by
                  rw [hpMt]
                  simp only [List.append_assoc, List.cons_append]
                  rw [dropWhile_app_all hw2]
                  exact dropWhile_cons_neg_eq hc1ws _
                simp only [List.cons_append, List.append_assoc] at hscr2 ⊢
                rw [hscr2]
                have hpm2 : parseMembers f (c1 :: (pMt ++ X)) [] = some (v, X) := by
                  have := hMre X t hXt
                  rw [hpMt] at this
                  simpa using this
                simp [hc1d, hpm2]
        next hco =>
          obtain ⟨preN, hNeq, hNne, hNre⟩ := parseNumber_det h
          obtain ⟨pNt, hpNt⟩ := cons_eq_append_head hNeq hNne
          refine ⟨w ++ preN, ?_, by simp [hpNt], fun X t hXt => ?_⟩
          · rw [hcs, hNeq]; simp
          · rw [hpNt, List.append_assoc, List.cons_append]
            have hscr := dropWhile_reassemble hw hcws pNt X
            unfold parseValue
            simp only [List.cons_append, List.append_assoc] at hscr ⊢
            rw [hscr]
            have hpn2 : parseNumber (c :: (pNt ++ X)) = some (v, X) := by
              have := hNre X t hXt
              rw [hpNt] at this
              simpa using this
            simp [hcn, hct, hcf, hcq, hcb, hco, hpn2]
    · intro cs acc v rest h
      unfold parseElemsTail at h
      split at h
      next heq => exact absurd h (by simp)
      next c rest1 heq =>
        obtain ⟨w, hcs, hw⟩ := dropWhile_decomp heq
        have hcws : isJsonWs c = false := dropWhile_head_neg heq
        split at h
        next hcb =>
          subst hcb
          simp only [Option.some.injEq, Prod.mk.injEq] at h
          obtain ⟨hv, hr⟩ := h
          subst hv; subst hr
          refine ⟨w ++ [']'], ?_, by simp, fun X t hXt => ?_⟩
          · rw [hcs]; simp
          · have hscr := dropWhile_reassemble hw hcws [] X
            unfold parseElemsTail
            simp only [List.cons_append, List.append_assoc, List.nil_append]
              at hscr ⊢
            rw [hscr]
            simp
        next hcb =>
        split at h
        next hcc =>
          subst hcc
          split at h
          next hpv => exact absurd h (by simp)
          next v1 r3 hpv =>
            obtain ⟨preV, hVeq, hVne, hVre⟩ := ihV _ _ _ hpv
            obtain ⟨preE, hEeq, hEne, hEre⟩ := ihE _ _ _ _ h
            refine ⟨w ++ ',' :: (preV ++ preE), ?_, by simp, fun X t hXt => ?_⟩
            · rw [hcs, hVeq, hEeq]; simp
            · have hscr := dropWhile_reassemble hw hcws (preV ++ preE) X
              unfold parseElemsTail
              simp only [List.cons_append, List.append_assoc] at hscr ⊢
              rw [hscr]
              have hpv2 : parseValue f (preV ++ (preE ++ X)) = some (v1, preE ++ X) :=
                hVre (preE ++ X) t (by rw [hEeq, hXt, List.append_assoc])
              have hpe2 : parseElemsTail f (preE ++ X) (acc ++ [v1]) = some (v, X) :=
                hEre X t hXt
              simp [hcb, hpv2, hpe2]
        next hcc => exact absurd h (by simp)
    · intro cs acc v rest h
      unfold parseMembers at h
      split at h
      next heq => exact absurd h (by simp)
      next c rest1 heq =>
        obtain ⟨w, hcs, hw⟩ := dropWhile_decomp heq
        have hcws : isJsonWs c = false := dropWhile_head_neg heq
        split at h
        next hcq =>
          subst hcq
          split at h
          next hpsb => exact absurd h (by simp)
          next k r1 hpsb =>
            obtain ⟨preK, hKeq, hKne, hKre⟩ := parseStringBody_det rest1 _ _ hpsb
            split at h
            next heq2 => exact absurd h (by simp)
            next c2 r2 heq2 =>
              obtain ⟨w2, hr1eq, hw2⟩ := dropWhile_decomp heq2
              have hc2ws : isJsonWs c2 = false := dropWhile_head_neg heq2
              split at h
              next hc2c =>
                subst hc2c
                split at h
                next hpv => exact absurd h (by simp)
                next v1 r3 hpv =>
                  obtain ⟨preV, hVeq, hVne, hVre⟩ := ihV _ _ _ hpv
                  split at h
                  next heq3 => exact absurd h (by simp)
                  next c3 r4 heq3 =>
                    obtain ⟨w3, hr3eq, hw3⟩ := dropWhile_decomp heq3
                    have hc3ws : isJsonWs c3 = false := dropWhile_head_neg heq3
                    split at h
                    next hc3c =>
                      subst hc3c
                      obtain ⟨preM, hMeq, hMne, hMre⟩ := ihM _ _ _ _ h
                      refine ⟨w ++ '"' ::
                        (preK ++ (w2 ++ ':' :: (preV ++ (w3 ++ ',' :: preM)))),
                        ?_, by simp, fun X t hXt => ?_⟩
                      · rw [hcs, hKeq, hr1eq, hVeq, hr3eq, hMeq]; simp
                      · have hscr := dropWhile_reassemble hw hcws
                          (preK ++ (w2 ++ ':' :: (preV ++ (w3 ++ ',' :: preM)))) X
                        unfold parseMembers
                        simp only [List.cons_append, List.append_assoc] at hscr ⊢
                        rw [hscr]
                        have hK2 : parseStringBody
                            (preK ++ (w2 ++ ':' :: (preV ++ (w3 ++ ',' :: (preM ++ X)))))
                            = some (k, w2 ++ ':' :: (preV ++ (w3 ++ ',' :: (preM ++ X)))) :=
                          hKre _
                        have hscr2 : (w2 ++ ':' :: (preV ++ (w3 ++ ',' :: (preM ++ X)))).dropWhile isJsonWs
                            = ':' :: (preV ++ (w3 ++ ',' :: (preM ++ X))) := by
                          rw [dropWhile_app_all hw2]
                          exact dropWhile_cons_neg_eq hc2ws _
                        have hV2 : parseValue f (preV ++ (w3 ++ ',' :: (preM ++ X)))
                            = some (v1, w3 ++ ',' :: (preM ++ X)) :=
                          hVre _ t (by rw [hr3eq, hMeq, hXt]; simp)
                        have hscr3 : (w3 ++ ',' :: (preM ++ X)).dropWhile isJsonWs
                            = ',' :: (preM ++ X) := by
                          rw [dropWhile_app_all hw3]
                          exact dropWhile_cons_neg_eq hc3ws _
                        have hM2 : parseMembers f (preM ++ X) (acc ++ [(⟨k⟩, v1)])
                            = some (v, X) := hMre X t hXt
                        simp [hK2, hscr2, hV2, hscr3, hM2]
                    next hc3c =>
                    split at h
                    next hc3d =>
                      subst hc3d
                      simp only [Option.some.injEq, Prod.mk.injEq] at h
                      obtain ⟨hv, hr⟩ := h
                      subst hv; subst hr
                      refine ⟨w ++ '"' ::
                        (preK ++ (w2 ++ ':' :: (preV ++ (w3 ++ ['\x7d'])))),
                        ?_, by simp, fun X t hXt => ?_⟩
                      · rw [hcs, hKeq, hr1eq, hVeq, hr3eq]; simp
                      · have hscr := dropWhile_reassemble hw hcws
                          (preK ++ (w2 ++ ':' :: (preV ++ (w3 ++ ['\x7d'])))) X
                        unfold parseMembers
                        simp only [List.cons_append, List.append_assoc] at hscr ⊢
                        rw [hscr]
                        have hK2 : parseStringBody
                            (preK ++ (w2 ++ ':' :: (preV ++ (w3 ++ '\x7d' :: X))))
                            = some (k, w2 ++ ':' :: (preV ++ (w3 ++ '\x7d' :: X))) :=
                          hKre _
                        have hscr2 : (w2 ++ ':' :: (preV ++ (w3 ++ '\x7d' :: X))).dropWhile isJsonWs
                            = ':' :: (preV ++ (w3 ++ '\x7d' :: X)) := by
                          rw [dropWhile_app_all hw2]
                          exact dropWhile_cons_neg_eq hc2ws _
                        have hV2 : parseValue f (preV ++ (w3 ++ '\x7d' :: X))
                            = some (v1, w3 ++ '\x7d' :: X) :=
                          hVre _ t (by rw [hr3eq, hXt]; simp)
                        have hscr3 : (w3 ++ '\x7d' :: X).dropWhile isJsonWs
                            = '\x7d' :: X := by
                          rw [dropWhile_app_all hw3]
                          exact dropWhile_cons_neg_eq hc3ws _
                        simp [hK2, hscr2, hV2, hscr3, hc3c]
                    next hc3d => exact absurd h (by simp)
              next hc2c => exact absurd h (by simp)
        next hcq => exact absurd h (by simp)


/-! ## Fuel adequacy -/

theorem parse_fuel_lb (fuel : Nat) :
    (∀ cs v rest, parseValue fuel cs = some (v, rest) →
      ∀ g, 2 * cs.length + 1 ≤ g → parseValue g cs = some (v, rest)) ∧
    (∀ cs acc v rest, parseElemsTail fuel cs acc = some (v, rest) →
      ∀ g, 2 * cs.length + 1 ≤ g → parseElemsTail g cs acc = some (v, rest)) ∧
    (∀ cs acc v rest, parseMembers fuel cs acc = some (v, rest) →
      ∀ g, 2 * cs.length + 1 ≤ g → parseMembers g cs acc = some (v, rest)) := by
  induction fuel with
  | zero =>
    refine ⟨?_, ?_, ?_⟩
    · intro cs v rest h; simp [parseValue] at h
    · intro cs acc v rest h; simp [parseElemsTail] at h
    · intro cs acc v rest h; simp [parseMembers] at h
  | succ f ih =>
    obtain ⟨ihV, ihE, ihM⟩ := ih
    refine ⟨?_, ?_, ?_⟩
    · intro cs v rest h g hg
      obtain ⟨g', rfl⟩ : ∃ g', g = Nat.succ g' := ⟨g - 1, by omega⟩
      unfold parseValue at h ⊢
      split at h
      next heq => exact absurd h (by simp)
      next c rest1 heq =>
        obtain ⟨w, hcs, hw⟩ := dropWhile_decomp heq
        have hLw := congrArg List.length hcs
        simp at hLw
        split at h
        next hcn => simp [hcn, h]
        next hcn =>
        split at h
        next hct => simp [hcn, hct, h]
        next hct =>
        split at h
        next hcf => simp [hcn, hct, hcf, h]
        next hcf =>
        split at h
        next hcq => simp [hcn, hct, hcf, hcq, h]
        next hcq =>
        split at h
        next hcb =>
          subst hcb
          split at h
          next heq2 => exact absurd h (by simp)
          next c1 r1 heq2 =>
            obtain ⟨w2, hr1eq, hw2⟩ := dropWhile_decomp heq2
            have hLw2 := congrArg List.length hr1eq
            simp at hLw2
            split at h
            next hc1b => simp [hcn, hct, hcf, hcq, heq2, hc1b, h]
            next hc1b =>
              split at h
              next hpv => exact absurd h (by simp)
              next v1 r2 hpv =>
                obtain ⟨preV, hVeq, hVne, _⟩ := (parse_det f).1 _ _ _ hpv
                have hLpv := congrArg List.length hVeq
                have hLpvne := List.length_pos.mpr hVne
                simp at hLpv
                have hpv' : parseValue g' (c1 :: r1) = some (v1, r2) :=
                  ihV _ _ _ hpv g' (by simp; omega)
                have hpe' : parseElemsTail g' r2 [v1] = some (v, rest) :=
                  ihE _ _ _ _ h g' (by omega)
                simp [hcn, hct, hcf, hcq, heq2, hc1b, hpv', hpe']
        next hcb =>
        split at h
        next hco =>
          subst hco
          split at h
          next heq2 => exact absurd h (by simp)
          next c1 r1 heq2 =>
            obtain ⟨w2, hr1eq, hw2⟩ := dropWhile_decomp heq2
            have hLw2 := congrArg List.length hr1eq
            simp at hLw2
            split at h
            next hc1d => simp [hcn, hct, hcf, hcq, hcb, heq2, hc1d, h]
            next hc1d =>
              have hpm' : parseMembers g' (c1 :: r1) [] = some (v, rest) :=
                ihM _ _ _ _ h g' (by simp; omega)
              simp [hcn, hct, hcf, hcq, hcb, heq2, hc1d, hpm']
        next hco =>
          simp [hcn, hct, hcf, hcq, hcb, hco, h]
    · intro cs acc v rest h g hg
      obtain ⟨g', rfl⟩ : ∃ g', g = Nat.succ g' := ⟨g - 1, by omega⟩
      unfold parseElemsTail at h ⊢
      split at h
      next heq => exact absurd h (by simp)
      next c rest1 heq =>
        obtain ⟨w, hcs, hw⟩ := dropWhile_decomp heq
        have hLw := congrArg List.length hcs
        simp at hLw
        split at h
        next hcb => simp [hcb, h]
        next hcb =>
        split at h
        next hcc =>
          subst hcc
          split at h
          next hpv => exact absurd h (by simp)
          next v1 r3 hpv =>
            obtain ⟨preV, hVeq, hVne, _⟩ := (parse_det f).1 _ _ _ hpv
            have hLpv := congrArg List.length hVeq
            have hLpvne := List.length_pos.mpr hVne
            simp at hLpv
            have hpv' : parseValue g' rest1 = some (v1, r3) :=
              ihV _ _ _ hpv g' (by omega)
            have hpe' : parseElemsTail g' r3 (acc ++ [v1]) = some (v, rest) :=
              ihE _ _ _ _ h g' (by omega)
            simp [hcb, hpv', hpe']
        next hcc => exact absurd h (by simp)
    · intro cs acc v rest h g hg
      obtain ⟨g', rfl⟩ : ∃ g', g = Nat.succ g' := ⟨g - 1, by omega⟩
      unfold parseMembers at h ⊢
      split at h
      next heq => exact absurd h (by simp)
      next c rest1 heq =>
        obtain ⟨w, hcs, hw⟩ := dropWhile_decomp heq
        have hLw := congrArg List.length hcs
        simp at hLw
        split at h
        next hcq =>
          subst hcq
          split at h
          next hpsb => exact absurd h (by simp)
          next k r1 hpsb =>
            obtain ⟨preK, hKeq, hKne, _⟩ := parseStringBody_det rest1 _ _ hpsb
            have hLpk := congrArg List.length hKeq
            have hLpkne := List.length_pos.mpr hKne
            simp at hLpk
            split at h
            next heq2 => exact absurd h (by simp)
            next c2 r2 heq2 =>
              obtain ⟨w2, hr1eq, hw2⟩ := dropWhile_decomp heq2
              have hLw2 := congrArg List.length hr1eq
              simp at hLw2
              split at h
              next hc2c =>
                subst hc2c
                split at h
                next hpv => exact absurd h (by simp)
                next v1 r3 hpv =>
                  obtain ⟨preV, hVeq, hVne, _⟩ := (parse_det f).1 _ _ _ hpv
                  have hLpv := congrArg List.length hVeq
                  have hLpvne := List.length_pos.mpr hVne
                  simp at hLpv
                  have hpv' : parseValue g' r2 = some (v1, r3) :=
                    ihV _ _ _ hpv g' (by omega)
                  split at h
                  next heq3 => exact absurd h (by simp)
                  next c3 r4 heq3 =>
                    obtain ⟨w3, hr3eq, hw3⟩ := dropWhile_decomp heq3
                    have hLw3 := congrArg List.length hr3eq
                    simp at hLw3
                    split at h
                    next hc3c =>
                      subst hc3c
                      have hpm' : parseMembers g' r4 (acc ++ [(⟨k⟩, v1)])
                          = some (v, rest) :=
                        ihM _ _ _ _ h g' (by omega)
                      simp [hpsb, heq2, heq3, hpv', hpm']
                    next hc3c =>
                    split at h
                    next hc3d =>
                      subst hc3d
                      simp [hpsb, heq2, heq3, hc3c, hpv', h]
                    next hc3d => exact absurd h (by simp)
              next hc2c => exact absurd h (by simp)
        next hcq => exact absurd h (by simp)

/-! ## Result shapes and fallback recovery -/

theorem parseElemsTail_shape (fuel : Nat) :
    ∀ cs acc v rest, parseElemsTail fuel cs acc = some (v, rest) →
      ∃ a, v = Json.arr a := by
  induction fuel with
  | zero => intro cs acc v rest h; simp [parseElemsTail] at h
  | succ f ih =>
    intro cs acc v rest h
    unfold parseElemsTail at h
    split at h
    next => exact absurd h (by simp)
    next c rest1 heq =>
      split at h
      next hcb =>
        simp only [Option.some.injEq, Prod.mk.injEq] at h
        exact ⟨acc, h.1.symm⟩
      next hcb =>
      split at h
      next hcc =>
        split at h
        next => exact absurd h (by simp)
        next v1 r3 hpv => exact ih _ _ _ _ h
      next hcc => exact absurd h (by simp)

theorem parseMembers_closing (fuel : Nat) :
    ∀ cs acc v rest, parseMembers fuel cs acc = some (v, rest) →
      (∃ m, v = Json.obj m) ∧
      ∃ pre, cs = pre ++ rest ∧ pre ≠ [] ∧ pre.getLast? = some '\x7d' := by
  induction fuel with
  | zero => intro cs acc v rest h; simp [parseMembers] at h
  | succ f ih =>
    intro cs acc v rest h
    unfold parseMembers at h
    split at h
    next => exact absurd h (by simp)
    next c rest1 heq =>
      obtain ⟨w, hcs, hw⟩ := dropWhile_decomp heq
      split at h
      next hcq =>
        subst hcq
        split at h
        next => exact absurd h (by simp)
        next k r1 hpsb =>
          obtain ⟨preK, hKeq, hKne, _⟩ := parseStringBody_det rest1 _ _ hpsb
          split at h
          next => exact absurd h (by simp)
          next c2 r2 heq2 =>
            obtain ⟨w2, hr1eq, hw2⟩ := dropWhile_decomp heq2
            split at h
            next hc2c =>
              subst hc2c
              split at h
              next => exact absurd h (by simp)
              next v1 r3 hpv =>
                obtain ⟨preV, hVeq, hVne, _⟩ := (parse_det f).1 _ _ _ hpv
                split at h
                next => exact absurd h (by simp)
                next c3 r4 heq3 =>
                  obtain ⟨w3, hr3eq, hw3⟩ := dropWhile_decomp heq3
                  split at h
                  next hc3c =>
                    subst hc3c
                    obtain ⟨hobj, pre', hpeq, hpne, hplast⟩ := ih _ _ _ _ h
                    refine ⟨hobj,
                      (w ++ '"' :: (preK ++ (w2 ++ ':' :: (preV ++ (w3 ++ [',']))))) ++ pre',
                      ?_, by simp, ?_⟩
                    · rw [hcs, hKeq, hr1eq, hVeq, hr3eq, hpeq]; simp
                    · rw [List.getLast?_append_of_ne_nil _ hpne]
                      exact hplast
                  next hc3c =>
                  split at h
                  next hc3d =>
                    subst hc3d
                    simp only [Option.some.injEq, Prod.mk.injEq] at h
                    obtain ⟨hv, hr⟩ := h
                    subst hv; subst hr
                    refine ⟨⟨_, rfl⟩,
                      (w ++ '"' :: (preK ++ (w2 ++ ':' :: (preV ++ w3)))) ++ ['\x7d'],
                      ?_, by simp, List.getLast?_concat _⟩
                    rw [hcs, hKeq, hr1eq, hVeq, hr3eq]; simp
                  next => exact absurd h (by simp)
            next => exact absurd h (by simp)
      next => exact absurd h (by simp)

theorem parseValue_obj (fuel : Nat) :
    ∀ cs kvs rest, parseValue fuel cs = some (Json.obj kvs, rest) →
      ∃ w body, cs = w ++ body ++ rest ∧ (∀ x ∈ w, isJsonWs x = true) ∧
        body.head? = some '\x7b' ∧ body.getLast? = some '\x7d' := by
  cases fuel with
  | zero => intro cs kvs rest h; simp [parseValue] at h
  | succ f =>
    intro cs kvs rest h
    unfold parseValue at h
    split at h
    next => exact absurd h (by simp)
    next c rest1 heq =>
      obtain ⟨w, hcs, hw⟩ := dropWhile_decomp heq
      split at h
      next hcn => split at h <;> simp at h
      next hcn =>
      split at h
      next hct => split at h <;> simp at h
      next hct =>
      split at h
      next hcf => split at h <;> simp at h
      next hcf =>
      split at h
      next hcq => split at h <;> simp at h
      next hcq =>
      split at h
      next hcb =>
        split at h
        next => exact absurd h (by simp)
        next c1 r1 heq2 =>
          split at h
          next => simp at h
          next hc1b =>
            split at h
            next => exact absurd h (by simp)
            next v1 r2 hpv =>
              obtain ⟨a, ha⟩ := parseElemsTail_shape f _ _ _ _ h
              simp at ha
      next hcb =>
      split at h
      next hco =>
        subst hco
        split at h
        next => exact absurd h (by simp)
        next c1 r1 heq2 =>
          obtain ⟨w2, hr1eq, hw2⟩ := dropWhile_decomp heq2
          split at h
          next hc1d =>
            subst hc1d
            simp only [Option.some.injEq, Prod.mk.injEq] at h
            obtain ⟨hv, hr⟩ := h
            subst hr
            refine ⟨w, '\x7b' :: (w2 ++ ['\x7d']), ?_, hw, rfl, ?_⟩
            · rw [hcs, hr1eq]; simp
            · rw [show '\x7b' :: (w2 ++ ['\x7d']) = ('\x7b' :: w2) ++ ['\x7d'] by simp]
              exact List.getLast?_concat _
          next hc1d =>
            obtain ⟨⟨m, hm⟩, pre', hpeq, hpne, hplast⟩ :=
              parseMembers_closing f _ _ _ _ h
            refine ⟨w, '\x7b' :: (w2 ++ pre'), ?_, hw, rfl, ?_⟩
            · rw [hcs, hr1eq, hpeq]; simp
            · rw [show '\x7b' :: (w2 ++ pre') = ('\x7b' :: w2) ++ pre' by simp]
              rw [List.getLast?_append_of_ne_nil _ hpne]
              exact hplast
      next hco =>
        obtain ⟨n, hn⟩ := parseNumber_shape h
        simp at hn

theorem parseValue_ws_prefix {f : Nat} {w l : List Char}
    (hw : ∀ x ∈ w, isJsonWs x = true) :
    parseValue (Nat.succ f) (w ++ l) = parseValue (Nat.succ f) l := by
  unfold parseValue
  rw [dropWhile_app_all hw]

theorem parseJsonL_obj_fallback {cs : List Char} {kvs : List (String × Json)}
    (h : parseJsonL cs = some (Json.obj kvs)) :
    ∃ body, greedyCandidateL cs = some body ∧
      parseJsonL body = some (Json.obj kvs) := by
  unfold parseJsonL at h
  split at h
  next v rest hpv =>
    split at h
    next hrest =>
      simp only [Option.some.injEq] at h
      subst h
      obtain ⟨w, body, hcs, hw, hhead, hlast⟩ := parseValue_obj _ _ _ _ hpv
      have hrestws : ∀ x ∈ rest, isJsonWs x = true :=
        fun x hx => List.dropWhile_eq_nil_iff.mp hrest x hx
      have hjsonws_brace : ∀ x : Char, isJsonWs x = true → (x == '\x7b') = false := by
        intro x hx
        cases hb : x == '\x7b' with
        | false => rfl
        | true =>
          have : x = '\x7b' := by simpa using hb
          rw [this] at hx
          simp [isJsonWs] at hx
      have hjsonws_brace2 : ∀ x : Char, isJsonWs x = true → (x == '\x7d') = false := by
        intro x hx
        cases hb : x == '\x7d' with
        | false => rfl
        | true =>
          have : x = '\x7d' := by simpa using hb
          rw [this] at hx
          simp [isJsonWs] at hx
      have hg : greedyCandidateL cs = some body := by
        rw [hcs]
        exact greedyCandidateL_of_shape
          (fun c hc => hjsonws_brace c (hw c hc)) hhead hlast
          (fun c hc => hjsonws_brace2 c (hrestws c hc))
      obtain ⟨F', hF⟩ : ∃ F', parseFuel cs = Nat.succ F' :=
        ⟨2 * cs.length + 1, by simp [parseFuel]⟩
      rw [hF, hcs, List.append_assoc, parseValue_ws_prefix hw] at hpv
      obtain ⟨pre, hpeq, hpne, hre⟩ := (parse_det _).1 _ _ _ hpv
      have hprebody : body = pre := List.append_cancel_right hpeq
      subst hprebody
      have hbody0 : parseValue (Nat.succ F') (body ++ []) =
          some (Json.obj kvs, []) := hre [] rest (by simp)
      rw [List.append_nil] at hbody0
      have hlb := (parse_fuel_lb _).1 _ _ _ hbody0 (parseFuel body)
        (by simp [parseFuel])
      refine ⟨body, hg, ?_⟩
      unfold parseJsonL
      rw [hlb]
      simp
    next => exact absurd h (by simp)
  next => exact absurd h (by simp)

/-! ## Claim C9 -/

theorem quizOutputFromJson_obj {j : Json} {qs : List QuizQuestion}
    (h : quizOutputFromJson j = some qs) : ∃ kvs, j = Json.obj kvs := by
  cases j <;> simp [quizOutputFromJson] at h ⊢

theorem parseQuizOutput_fallback {raw : String} {qs : List QuizQuestion}
    (h : parseQuizOutput raw = some qs) : regexFallback raw = some qs := by
  unfold parseQuizOutput at h
  obtain ⟨j, hj, hq⟩ := Option.bind_eq_some.mp h
  obtain ⟨kvs, rfl⟩ := quizOutputFromJson_obj hq
  obtain ⟨body, hg, hb⟩ := parseJsonL_obj_fallback hj
  unfold regexFallback parseQuizOutputL
  rw [hg]
  simp only [Option.some_bind]
  rw [hb]
  simp only [Option.some_bind]
  exact hq

/-- Claim C9: when the raw response parses and validates but the validation
stage itself raises, `generate_quiz` re-extracts the same questions from the
raw response through the regex fallback and returns them (no exception, no
sentinel, and no validation attached beyond what the raw JSON itself
carried). -/
theorem c9_validation_stage_failure_reextracts
    (raw : String) (qs : List QuizQuestion) (e lo : String) (n : Int)
    (h : parseQuizOutput raw = some qs) :
    generate_quiz (fun _ => LLMResult.ok raw) (fun _ => Except.error e)
      lo n true = qs := by
  simp [generate_quiz, errorFallback, h, parseQuizOutput_fallback h]

set_option maxRecDepth 20000 in
/-- Witness for C9 at a concrete one-question response. -/
theorem c9_validation_stage_failure_reextracts_witness :
    generate_quiz
      (fun _ => LLMResult.ok "\x7b\"questions\":[\x7b\"question\":\"q1\",\"option_a\":\"x\",\"option_b\":\"y\",\"option_c\":\"z\",\"option_d\":\"w\",\"correct_answer\":\"a\",\"explanation\":\"e\"\x7d]\x7d")
      (fun _ => Except.error "event loop failure") "obj" 1 true
      = [⟨"q1", "x", "y", "z", "w", "a", "e", none⟩] :=
  c9_validation_stage_failure_reextracts _ _ _ _ _ (by rfl)

/-! ## Claim C1 -/

theorem data_append_head {s t : String} {c : Char} {r : List Char}
    (hs : s.data = c :: r) : (s ++ t).data = c :: (r ++ t.data) := by
  rw [String.data_append, hs]
  rfl

theorem checkNotEmpty_of_head {v : String} {c : Char} {t : List Char}
    (hd : v.data = c :: t) (hc : isPyWs c = false) :
    checkNotEmpty v = .ok (pyStrip v) := by
  unfold checkNotEmpty
  rw [if_neg]
  intro hcontra
  have hdat : pyStripL v.data = [] := by
    have := congrArg String.data hcontra
    exact this
  rw [hd] at hdat
  exact pyStripL_ne_nil hc t hdat

/-- Claim C1 (counterexample): when the model answers with an empty
`questions` list, `generate_quiz` returns the empty sequence — the result is
not always non-empty. -/
theorem c1_counterexample :
    generate_quiz (fun _ => LLMResult.ok "\x7b\"questions\": []\x7d")
      Except.ok "objective" 3 false = [] := rfl

/-- Claim C1 (amended): `generate_quiz` is total; when the LLM call raises it
returns exactly the single sentinel question carrying the exception text;
when the response exists but neither the direct decode nor the greedy-regex
fallback yields a schema-valid quiz, it returns the single sentinel question
for the decode error; the sentinel always has `correct_answer = "c"` and
passes schema validation.  (Non-emptiness holds on these failure paths; the
success path returns the model's list as-is, which may be empty.) -/
theorem c1_failure_paths_yield_sentinel :
    (∀ lo n validate vs e,
      generate_quiz (fun _ => LLMResult.err e) vs lo n validate
        = [sentinelQuestion e]) ∧
    (∀ lo n validate vs raw, parseQuizOutput raw = none → regexFallback raw = none →
      generate_quiz (fun _ => LLMResult.ok raw) vs lo n validate
        = [sentinelQuestion parseFailureMsg]) ∧
    (∀ e, (sentinelQuestion e).correct_answer = "c") ∧
    (∀ e, mkQuizQuestion ("Error generating quiz question: " ++ e)
        "Contact administrator" "Try again later"
        "Provide a different learning objective" "Check API configuration"
        "c"
        "Failed to generate valid quiz data due to an error in processing the request."
        none = .ok (sentinelQuestion e)) := by
  refine ⟨?_, ?_, ?_, ?_⟩
  · intro lo n validate vs e
    rfl
  · intro lo n validate vs raw hp hf
    simp [generate_quiz, errorFallback, hp, hf]
  · intro e
    rfl
  · intro e
    unfold mkQuizQuestion
    rw [checkNotEmpty_of_head
      (data_append_head
        (show ("Error generating quiz question: " : String).data
          = 'E' :: ("rror generating quiz question: " : String).data from rfl))
      (by decide)]
    rfl

/-- Witness for the failure paths of C1. -/
theorem c1_failure_paths_yield_sentinel_witness :
    generate_quiz (fun _ => LLMResult.ok "no json here") Except.ok "x" 3 false
      = [sentinelQuestion parseFailureMsg] :=
  c1_failure_paths_yield_sentinel.2.1 "x" 3 false Except.ok "no json here"
    (by rfl) (by rfl)

/-! ## Claims C5 and C6 -/

/-- Claim C5 (counterexample): the embedded object `\x7b"questions": []\x7d`
is schema-valid on its own, yet with trailing prose containing a closing
brace the extraction chain recovers nothing (the greedy candidate spans to
the prose's last brace and fails to decode). -/
theorem c5_counterexample :
    parseQuizOutput "\x7b\"questions\": []\x7d" = some [] ∧
    extractQuestions "x \x7b\"questions\": []\x7d y\x7d" = none :=
  ⟨rfl, rfl⟩

/-- Claim C5 (amended): the fallback uses a single greedy candidate (first
`\x7b` to last `\x7d`); recovery of an embedded schema-valid object is
guaranteed when the prose before it contains no opening brace and the prose
after it contains no closing brace. -/
theorem c5_braceless_prose_recovers (p1 p2 body : String)
    (qs : List QuizQuestion)
    (h1 : ∀ c ∈ p1.data, (c == '\x7b') = false)
    (hh : body.data.head? = some '\x7b')
    (hl : body.data.getLast? = some '\x7d')
    (h2 : ∀ c ∈ p2.data, (c == '\x7d') = false)
    (hbody : parseQuizOutput body = some qs) :
    regexFallback (p1 ++ body ++ p2) = some qs := by
  unfold regexFallback
  have hdata : (p1 ++ body ++ p2).data = p1.data ++ body.data ++ p2.data := by
    rw [String.data_append, String.data_append]
  rw [hdata, greedyCandidateL_of_shape h1 hh hl h2]
  simp only [Option.some_bind]
  exact hbody

set_option maxRecDepth 20000 in
/-- Witness for C5 (amended) at a concrete prose-wrapped response. -/
theorem c5_braceless_prose_recovers_witness :
    regexFallback ("Sure! Here is the quiz: " ++
      "\x7b\"questions\":[\x7b\"question\":\"q1\",\"option_a\":\"x\",\"option_b\":\"y\",\"option_c\":\"z\",\"option_d\":\"w\",\"correct_answer\":\"a\",\"explanation\":\"e\"\x7d]\x7d"
      ++ " Hope this helps.")
      = some [⟨"q1", "x", "y", "z", "w", "a", "e", none⟩] :=
  c5_braceless_prose_recovers _ _ _ _
    (by decide) (by rfl) (by rfl) (by decide) (by rfl)

/-- Claim C6 (counterexample): a spy LLM observes the prompt built from the
raw, unclamped count 15; `generate_quiz` performs no re-clamping. -/
theorem c6_counterexample :
    generate_quiz
      (fun p => if p = userPrompt "algebra" 15 then LLMResult.err "saw 15"
        else LLMResult.err "different prompt")
      Except.ok "algebra" 15 false = [sentinelQuestion "saw 15"] ∧
    ¬((15 : Int) ≤ 10) :=
  ⟨rfl, by decide⟩

/-- Claim C6 (amended): the clamp to [1, 10] lives in the HTTP endpoint, not
in `generate_quiz`: for any request with a non-empty objective the endpoint
calls `generate_quiz` with `max 1 (min 10 n)`, which always lies in
[1, 10]; `generate_quiz` itself is total and never crashes on any count. -/
theorem c6_endpoint_clamps_count (llm : String → LLMResult)
    (vs : List QuizQuestion → Except String (List QuizQuestion))
    (lo : String) (n : Int) (v : Bool) (hlo : lo ≠ "") :
    generate_quiz_endpoint llm vs ⟨some lo, some n, some v⟩
      = QuizResponse.ok (generate_quiz llm vs lo (max 1 (min 10 n)) v) ∧
    1 ≤ max 1 (min 10 n) ∧ max 1 (min 10 n) ≤ 10 := by
  refine ⟨?_, le_max_left _ _, max_le (by norm_num) (min_le_left _ _)⟩
  simp [generate_quiz_endpoint, hlo]

/-- Witness for C6 (amended): a request for 15 questions is served with the
clamped count. -/
theorem c6_endpoint_clamps_count_witness :
    generate_quiz_endpoint (fun _ => LLMResult.err "x") Except.ok
      ⟨some "algebra", some 15, some false⟩
      = QuizResponse.ok (generate_quiz (fun _ => LLMResult.err "x")
          Except.ok "algebra" (max 1 (min 10 15)) false) ∧
    1 ≤ max 1 (min 10 (15 : Int)) ∧ max 1 (min 10 (15 : Int)) ≤ 10 :=
  c6_endpoint_clamps_count _ _ _ _ _ (by decide)

/-! ## Claims C10 and C2 -/

/-- Claim C10: the endpoint answers 400 "Learning objective is required"
exactly when `learning_objective` is missing or the empty string; a
whitespace-only objective (such as a single space) passes the check and
generation proceeds to a 200 response. -/
theorem c10_empty_objective_iff_bad_request (llm : String → LLMResult)
    (vs : List QuizQuestion → Except String (List QuizQuestion))
    (req : QuizRequest) :
    (generate_quiz_endpoint llm vs req
        = QuizResponse.badRequest "Learning objective is required" ↔
      (req.learning_objective = none ∨ req.learning_objective = some "")) ∧
    (req.learning_objective = some " " →
      ∃ qs, generate_quiz_endpoint llm vs req = QuizResponse.ok qs) := by
  constructor
  · unfold generate_quiz_endpoint
    cases hlo : req.learning_objective with
    | none => simp
    | some s =>
      by_cases hs : s = ""
      · subst hs; simp
      · simp [hs]
  · intro hlo
    unfold generate_quiz_endpoint
    rw [hlo]
    exact ⟨_, rfl⟩

/-- Witness for C10: a single-space objective yields a 200. -/
theorem c10_empty_objective_iff_bad_request_witness :
    ∃ qs, generate_quiz_endpoint (fun _ => LLMResult.err "x") Except.ok
      ⟨some " ", none, none⟩ = QuizResponse.ok qs :=
  (c10_empty_objective_iff_bad_request _ _ _).2 rfl

theorem validate_quiz_questions_spec
    (va : String → String → String → ValidationResult) :
    ∀ qs : List QuizQuestion,
      (∀ q ∈ qs, q.correct_answer = "a" ∨ q.correct_answer = "b" ∨
        q.correct_answer = "c" ∨ q.correct_answer = "d") →
      ∃ out, validate_quiz_questions va qs = some out ∧
        out.length = qs.length ∧
        ∀ (i : Nat) (hi : i < qs.length) (ho : i < out.length),
          ∃ t, getOptionField (qs.get ⟨i, hi⟩) (qs.get ⟨i, hi⟩).correct_answer
              = some t ∧
            out.get ⟨i, ho⟩ =
              ⟨(qs.get ⟨i, hi⟩).question, (qs.get ⟨i, hi⟩).option_a,
               (qs.get ⟨i, hi⟩).option_b, (qs.get ⟨i, hi⟩).option_c,
               (qs.get ⟨i, hi⟩).option_d, (qs.get ⟨i, hi⟩).correct_answer,
               (qs.get ⟨i, hi⟩).explanation,
               some (va (qs.get ⟨i, hi⟩).question t
                 (qs.get ⟨i, hi⟩).explanation)⟩ := by
  intro qs
  induction qs with
  | nil =>
    intro _
    exact ⟨[], rfl, rfl, fun i hi => absurd hi (by simp)⟩
  | cons q rest ih =>
    intro hca
    obtain ⟨t, hget⟩ : ∃ t, getOptionField q q.correct_answer = some t := by
      rcases hca q (by simp) with h | h | h | h
      · exact ⟨q.option_a, by simp [getOptionField, h]⟩
      · exact ⟨q.option_b, by simp [getOptionField, h]⟩
      · exact ⟨q.option_c, by simp [getOptionField, h]⟩
      · exact ⟨q.option_d, by simp [getOptionField, h]⟩
    obtain ⟨out, hout, hlen, hidx⟩ := ih (fun p hp => hca p (by simp [hp]))
    refine ⟨⟨q.question, q.option_a, q.option_b, q.option_c, q.option_d,
      q.correct_answer, q.explanation,
      some (va q.question t q.explanation)⟩ :: out, ?_, by simp [hlen], ?_⟩
    · unfold validate_quiz_questions validate_question
      rw [hget, hout]
    · intro i hi ho
      cases i with
      | zero => exact ⟨t, hget, rfl⟩
      | succ i' =>
        exact hidx i' (by simpa using hi) (by simpa using ho)

/-- Claim C2: for N between 1 and 10, the orchestrator maps N questions to
exactly N results in input order, each output being the corresponding input
question with only its `validation` field set to that question's
`ValidationResult`. -/
theorem c2_validate_all_order_preserving
    (va : String → String → String → ValidationResult)
    (qs : List QuizQuestion)
    (hn1 : 1 ≤ qs.length) (hn10 : qs.length ≤ 10)
    (hca : ∀ q ∈ qs, q.correct_answer = "a" ∨ q.correct_answer = "b" ∨
      q.correct_answer = "c" ∨ q.correct_answer = "d") :
    ∃ out, validate_quiz_questions va qs = some out ∧
      out.length = qs.length ∧
      ∀ (i : Nat) (hi : i < qs.length) (ho : i < out.length),
        ∃ t, getOptionField (qs.get ⟨i, hi⟩) (qs.get ⟨i, hi⟩).correct_answer
            = some t ∧
          out.get ⟨i, ho⟩ =
            ⟨(qs.get ⟨i, hi⟩).question, (qs.get ⟨i, hi⟩).option_a,
             (qs.get ⟨i, hi⟩).option_b, (qs.get ⟨i, hi⟩).option_c,
             (qs.get ⟨i, hi⟩).option_d, (qs.get ⟨i, hi⟩).correct_answer,
             (qs.get ⟨i, hi⟩).explanation,
             some (va (qs.get ⟨i, hi⟩).question t
               (qs.get ⟨i, hi⟩).explanation)⟩ :=
  validate_quiz_questions_spec va qs hca

/-- Witness for C2 on two concrete questions. -/
theorem c2_validate_all_order_preserving_witness :
    ∃ out, validate_quiz_questions (fun _ _ _ => ⟨some true, "ok", []⟩)
      [⟨"q1", "a1", "b1", "c1", "d1", "a", "e1", none⟩,
       ⟨"q2", "a2", "b2", "c2", "d2", "d", "e2", none⟩] = some out ∧
      out.length = 2 := by
  obtain ⟨out, h1, h2, _⟩ := c2_validate_all_order_preserving
    (fun _ _ _ => ⟨some true, "ok", []⟩)
    [⟨"q1", "a1", "b1", "c1", "d1", "a", "e1", none⟩,
     ⟨"q2", "a2", "b2", "c2", "d2", "d", "e2", none⟩]
    (by decide) (by decide) (by decide)
  exact ⟨out, h1, by rw [h2]; rfl⟩

/-! ## Claim C3 -/

theorem pyStrip_idem (s : String) : pyStrip (pyStrip s) = pyStrip s := by
  unfold pyStrip
  exact congrArg String.mk (pyStripL_idem s.data)

theorem mkQuizQuestion_ok {q a b c d ca ex : String}
    {val : Option ValidationResult}
    (hq : ¬ pyStrip q = "") (ha : ¬ pyStrip a = "") (hb : ¬ pyStrip b = "")
    (hc : ¬ pyStrip c = "") (hd : ¬ pyStrip d = "")
    (hca : ca = "a" ∨ ca = "b" ∨ ca = "c" ∨ ca = "d")
    (hex : ¬ pyStrip ex = "") :
    mkQuizQuestion q a b c d ca ex val =
      .ok ⟨pyStrip q, pyStrip a, pyStrip b, pyStrip c, pyStrip d, ca,
        pyStrip ex, val⟩ := by
  simp [mkQuizQuestion, Except.bind, Except.map, checkNotEmpty, checkValidAnswer,
    hq, ha, hb, hc, hd, hca, hex]

/-- Claim C3: construction fails exactly when `correct_answer` is outside
a–d or some required text field strips to empty; on success the stored
fields are the stripped inputs, and re-constructing from a constructed
question's fields succeeds and is the identity (stripping is idempotent). -/
theorem c3_schema_validation (q a b c d ca ex : String)
    (val : Option ValidationResult) :
    ((∃ err, mkQuizQuestion q a b c d ca ex val = .error err) ↔
      (¬(ca = "a" ∨ ca = "b" ∨ ca = "c" ∨ ca = "d") ∨
        pyStrip q = "" ∨ pyStrip a = "" ∨ pyStrip b = "" ∨
        pyStrip c = "" ∨ pyStrip d = "" ∨ pyStrip ex = "")) ∧
    (∀ q', mkQuizQuestion q a b c d ca ex val = .ok q' →
      q' = ⟨pyStrip q, pyStrip a, pyStrip b, pyStrip c, pyStrip d, ca,
        pyStrip ex, val⟩ ∧
      mkQuizQuestion q'.question q'.option_a q'.option_b q'.option_c
        q'.option_d q'.correct_answer q'.explanation q'.validation
        = .ok q') := by
  by_cases hq : pyStrip q = ""
  · constructor
    · simp [mkQuizQuestion, Except.bind, Except.map, checkNotEmpty, hq]
    · intro q' hok
      rw [show mkQuizQuestion q a b c d ca ex val = .error "Field cannot be empty" by
        simp [mkQuizQuestion, Except.bind, Except.map, checkNotEmpty, hq]] at hok
      exact absurd hok (by simp)
  by_cases ha : pyStrip a = ""
  · constructor
    · simp [mkQuizQuestion, Except.bind, Except.map, checkNotEmpty, hq, ha]
    · intro q' hok
      rw [show mkQuizQuestion q a b c d ca ex val = .error "Field cannot be empty" by
        simp [mkQuizQuestion, Except.bind, Except.map, checkNotEmpty, hq, ha]] at hok
      exact absurd hok (by simp)
  by_cases hb : pyStrip b = ""
  · constructor
    · simp [mkQuizQuestion, Except.bind, Except.map, checkNotEmpty, hq, ha, hb]
    · intro q' hok
      rw [show mkQuizQuestion q a b c d ca ex val = .error "Field cannot be empty" by
        simp [mkQuizQuestion, Except.bind, Except.map, checkNotEmpty, hq, ha, hb]] at hok
      exact absurd hok (by simp)
  by_cases hc : pyStrip c = ""
  · constructor
    · simp [mkQuizQuestion, Except.bind, Except.map, checkNotEmpty, hq, ha, hb, hc]
    · intro q' hok
      rw [show mkQuizQuestion q a b c d ca ex val = .error "Field cannot be empty" by
        simp [mkQuizQuestion, Except.bind, Except.map, checkNotEmpty, hq, ha, hb, hc]] at hok
      exact absurd hok (by simp)
  by_cases hd : pyStrip d = ""
  · constructor
    · simp [mkQuizQuestion, Except.bind, Except.map, checkNotEmpty, hq, ha, hb, hc, hd]
    · intro q' hok
      rw [show mkQuizQuestion q a b c d ca ex val = .error "Field cannot be empty" by
        simp [mkQuizQuestion, Except.bind, Except.map, checkNotEmpty, hq, ha, hb, hc, hd]] at hok
      exact absurd hok (by simp)
  by_cases hca : ca = "a" ∨ ca = "b" ∨ ca = "c" ∨ ca = "d"
  · by_cases hex : pyStrip ex = ""
    · constructor
      · simp [mkQuizQuestion, Except.bind, Except.map, checkNotEmpty, checkValidAnswer,
          hq, ha, hb, hc, hd, hca, hex]
      · intro q' hok
        rw [show mkQuizQuestion q a b c d ca ex val = .error "Field cannot be empty" by
          simp [mkQuizQuestion, Except.bind, Except.map, checkNotEmpty, checkValidAnswer,
            hq, ha, hb, hc, hd, hca, hex]] at hok
        exact absurd hok (by simp)
    · constructor
      · rw [mkQuizQuestion_ok hq ha hb hc hd hca hex]
        simp [hq, ha, hb, hc, hd, hca, hex]
      · intro q' hok
        rw [mkQuizQuestion_ok hq ha hb hc hd hca hex] at hok
        simp only [Except.ok.injEq] at hok
        subst hok
        refine ⟨rfl, ?_⟩
        rw [mkQuizQuestion_ok
          (by rw [pyStrip_idem]; exact hq) (by rw [pyStrip_idem]; exact ha)
          (by rw [pyStrip_idem]; exact hb) (by rw [pyStrip_idem]; exact hc)
          (by rw [pyStrip_idem]; exact hd) hca
          (by rw [pyStrip_idem]; exact hex)]
        simp [pyStrip_idem]
  · constructor
    · simp [mkQuizQuestion, Except.bind, Except.map, checkNotEmpty, checkValidAnswer,
        hq, ha, hb, hc, hd, hca]
    · intro q' hok
      rw [show mkQuizQuestion q a b c d ca ex val
          = .error "Correct answer must be a, b, c, or d" by
        simp [mkQuizQuestion, Except.bind, Except.map, checkNotEmpty, checkValidAnswer,
          hq, ha, hb, hc, hd, hca]] at hok
      exact absurd hok (by simp)

/-- Witness for C3: a question with padded fields constructs, stores the
stripped fields, and re-constructs to itself. -/
theorem c3_schema_validation_witness :
    mkQuizQuestion " What is 2+2? " "3" "4" "5" "6" "b" " Basic sum. " none
      = .ok ⟨"What is 2+2?", "3", "4", "5", "6", "b", "Basic sum.", none⟩ ∧
    mkQuizQuestion "What is 2+2?" "3" "4" "5" "6" "b" "Basic sum." none
      = .ok ⟨"What is 2+2?", "3", "4", "5", "6", "b", "Basic sum.", none⟩ := by
  obtain ⟨heq, hre⟩ :=
    (c3_schema_validation " What is 2+2? " "3" "4" "5" "6" "b" " Basic sum. "
      none).2 ⟨"What is 2+2?", "3", "4", "5", "6", "b", "Basic sum.", none⟩
      (by rfl)
  exact ⟨by rfl, hre⟩

/-! ## Claims C4 and C7 -/

/-- Claim C4: for every agent outcome, `validate_answer` (canonical variant)
returns a `ValidationResult` along one of exactly three paths — a validated
verdict, the fixed JSON-decode-failure result, or a generic-failure result
carrying the exception text; both failure results have `is_correct = none`
and empty sources, and the generic one embeds the error message. -/
theorem c4_validate_answer_total_two_failure_classes :
    (∀ ar, (∃ j vr, validationResultFromJson j = some vr ∧
        GenValidator.validate_answer ar = vr) ∨
      GenValidator.validate_answer ar = GenValidator.jsonDecodeFailResult ∨
      (∃ m, GenValidator.validate_answer ar = GenValidator.otherFailResult m)) ∧
    GenValidator.jsonDecodeFailResult.is_correct = none ∧
    GenValidator.jsonDecodeFailResult.sources = [] ∧
    (∀ m, (GenValidator.otherFailResult m).is_correct = none ∧
      (GenValidator.otherFailResult m).sources = [] ∧
      (GenValidator.otherFailResult m).explanation
        = "Could not validate the answer: " ++ m) := by
  refine ⟨?_, rfl, rfl, fun m => ⟨rfl, rfl, rfl⟩⟩
  intro ar
  cases ar with
  | error e => exact Or.inr (Or.inr ⟨e, rfl⟩)
  | ok raw =>
    cases hE : GenValidator.extractFinalAnswer raw with
    | none =>
      exact Or.inr (Or.inr ⟨"No structured response found",
        by simp [GenValidator.validate_answer, hE]⟩)
    | some fa =>
      cases hJ : parseJsonS fa with
      | none =>
        exact Or.inr (Or.inl (by simp [GenValidator.validate_answer, hE, hJ]))
      | some j =>
        cases hV : validationResultFromJson j with
        | none =>
          exact Or.inr (Or.inr ⟨GenValidator.schemaViolationMsg,
            by simp [GenValidator.validate_answer, hE, hJ, hV]⟩)
        | some vr =>
          exact Or.inl ⟨j, vr, hV,
            by simp [GenValidator.validate_answer, hE, hJ, hV]⟩

theorem cleanAndBuild_sources {j : Json} {vr : ValidationResult}
    (h : AppValidator.cleanAndBuild j = some vr) :
    ∃ cands : List String, vr.sources = cands.filter AppValidator.urlKeep := by
  cases j with
  | obj kvs =>
    simp only [AppValidator.cleanAndBuild] at h
    cases hc : AppValidator.sourceStrings ((lookupJson kvs "sources").getD (.arr [])) with
    | none => rw [hc] at h; exact absurd h (by simp)
    | some cands =>
      rw [hc] at h
      cases hex : (lookupJson kvs "explanation").bind asStr with
      | none => rw [hex] at h; exact absurd h (by simp)
      | some ex =>
        rw [hex] at h
        cases hic : (match lookupJson kvs "is_correct" with
            | none => some (none : Option Bool)
            | some jv => boolOrNull jv) with
        | none => rw [hic] at h; exact absurd h (by simp)
        | some ic =>
          rw [hic] at h
          simp only [Option.some.injEq] at h
          subst h
          exact ⟨cands, rfl⟩
  | null => exact absurd h (by simp [AppValidator.cleanAndBuild])
  | bool b => exact absurd h (by simp [AppValidator.cleanAndBuild])
  | num n => exact absurd h (by simp [AppValidator.cleanAndBuild])
  | str t => exact absurd h (by simp [AppValidator.cleanAndBuild])
  | arr xs => exact absurd h (by simp [AppValidator.cleanAndBuild])

/-- Claim C7 (counterexample): the canonical validator variant applies no
source filter — a verdict whose sources contain the non-URL string `foo`
is returned with `foo` retained, although `foo` fails the URL filter. -/
theorem c7_counterexample :
    GenValidator.validate_answer
        (Except.ok "Final Answer: \x7b\"is_correct\": true, \"explanation\": \"x\", \"sources\": [\"foo\"]\x7d")
      = ⟨some true, "x", ["foo"]⟩ ∧
    AppValidator.urlKeep "foo" = false :=
  ⟨rfl, rfl⟩

/-- Claim C7 (amended): in the app variant every retained source starts with
`http` and is longer than 10 characters; failure paths return no sources. -/
theorem c7_app_validator_filters_sources :
    ∀ ar s, s ∈ (AppValidator.validate_answer ar).sources →
      isCharPrefix "http".data s.data = true ∧ 10 < s.length := by
  intro ar s hs
  cases ar with
  | error e =>
    simp [AppValidator.validate_answer, AppValidator.failResult] at hs
  | ok raw =>
    cases hG : greedyCandidateL raw.data with
    | none =>
      simp [AppValidator.validate_answer, hG, AppValidator.failResult] at hs
    | some cand =>
      cases hJ : parseJsonL cand with
      | none =>
        simp [AppValidator.validate_answer, hG, hJ,
          AppValidator.failResult] at hs
      | some j =>
        cases hV : AppValidator.cleanAndBuild j with
        | none =>
          simp [AppValidator.validate_answer, hG, hJ, hV,
            AppValidator.failResult] at hs
        | some vr =>
          simp only [AppValidator.validate_answer, hG, hJ, hV] at hs
          obtain ⟨cands, hsrc⟩ := cleanAndBuild_sources hV
          rw [hsrc] at hs
          have hkeep := (List.mem_filter.mp hs).2
          simpa [AppValidator.urlKeep] using hkeep

/-- Witness for C7 (amended) at a concrete verdict with one kept URL. -/
theorem c7_app_validator_filters_sources_witness :
    isCharPrefix "http".data "http://example.org".data = true ∧
      10 < "http://example.org".length :=
  c7_app_validator_filters_sources
    (Except.ok "\x7b\"is_correct\": true, \"explanation\": \"ok\", \"sources\": [\"http://example.org\", \"foo\"]\x7d")
    "http://example.org"
    (by rw [show (AppValidator.validate_answer
        (Except.ok "\x7b\"is_correct\": true, \"explanation\": \"ok\", \"sources\": [\"http://example.org\", \"foo\"]\x7d")).sources
        = ["http://example.org"] from rfl]
        simp)

end QuizProof
